import Mathlib

/-!
# CheerChaser — verification of the spot-suggestion core

Shallow embedding of the CheerChaser spot-suggestion and feasibility engine:

* `parsePaceToSecondsPerMeter` — from `src/cheerchaser-app/src/utils.ts`.
* `handleSuggestSpots` and its pieces (`filterAvailable`, `maxSpreadSelect`,
  `isFeasible`, `scanBest`, `minTravelGo`) — from the `App` component
  (`src/unnamed/part_000`, the suggestion callback).
* `buildCourseIndex` / `segmentLoop` / `emitLoop` — the candidate-spot
  indexing effect of `MapComponent`
  (`src/cheerchaser-app/src/components/PlannerSidebar.tsx`).
* `findNearestPointOnTrail`, `calculateDistanceAlongTrail`,
  `cumulativeDistances` — the trail projector from the same file.
* `detectTrueCrossing` — the course-crossing check inside the `minTravel`
  loop of `handleSuggestSpots`.

Numbers are modelled by exact rationals.  The external great-circle
distance (Leaflet `LatLng.distanceTo`, turf `distance`) and the external
geometric intersection computation (turf `lineIntersect`) are abstracted
as parameters; metric facts they satisfy (nonnegativity, `d x x = 0`) are
explicit hypotheses.  JavaScript `Infinity` sentinels are modelled by
`Option ℚ` with `none` for `Infinity`; the JavaScript `NaN` that would
arise from a `0 / 0` during indexing is modelled by an `Option` failure of
the whole pass.
-/

/-- A geographic coordinate, Leaflet `LatLng`, with exact rational
coordinates. -/
structure LatLng where
  lat : ℚ
  lng : ℚ
deriving DecidableEq, Repr

instance : Inhabited LatLng := ⟨⟨0, 0⟩⟩

/-- `AVG_WALKING_SPEED_MPS = 1.4` (meters per second), from `App`. -/
def AVG_WALKING_SPEED_MPS : ℚ := 7 / 5

/-- `AVG_CYCLING_SPEED_MPS = 5.5` (meters per second), from `App`. -/
def AVG_CYCLING_SPEED_MPS : ℚ := 11 / 2

/-- `SPECTATOR_BUFFER_SECONDS = 60 * 10`, from `App`. -/
def SPECTATOR_BUFFER_SECONDS : ℚ := 60 * 10

/-- `COURSE_CROSSING_PENALTY_SECONDS = 60 * 5`, from `App`. -/
def COURSE_CROSSING_PENALTY_SECONDS : ℚ := 60 * 5

/-- `POTENTIAL_SPOT_INTERVAL = 50` meters, from `MapComponent`. -/
def POTENTIAL_SPOT_INTERVAL : ℚ := 50

/-- The spectator travel profile (`Utils.TravelProfile`). -/
inductive TravelProfile where
  | walking
  | cycling
  | transit
deriving DecidableEq, Repr

/-- The selection strategy (`Utils.SuggestionStrategy`). -/
inductive SuggestionStrategy where
  | maxSpread
  | minTravel
deriving DecidableEq, Repr

/-! ## Pace parsing (`utils.ts`) -/

/-- Numeric value of a digit string. -/
def digitsVal (ds : List Char) : ℕ :=
  ds.foldl (fun acc c => 10 * acc + (c.toNat - ('0').toNat)) 0

/-- JavaScript `parseInt(s, 10)` on a character list: skip leading
whitespace, read an optional sign, then the longest digit prefix; `NaN`
(here `none`) when no digit is found.  Trailing garbage is ignored,
exactly as in JavaScript. -/
def jsParseInt (s : List Char) : Option ℤ :=
  let cs := s.dropWhile (fun c => c.isWhitespace)
  let signAndRest : ℤ × List Char :=
    match cs with
    | '+' :: rest => (1, rest)
    | '-' :: rest => (-1, rest)
    | rest => (1, rest)
  let ds := signAndRest.2.takeWhile (fun c => c.isDigit)
  if ds.isEmpty then none
  else some (signAndRest.1 * (digitsVal ds : ℤ))

/-- JavaScript `String.prototype.split(':')` on a character list:
`[] ↦ [[]]`, and each colon opens a new part. -/
def splitColon : List Char → List (List Char)
  | [] => [[]]
  | c :: rest =>
    let r := splitColon rest
    if c = ':' then [] :: r
    else
      match r with
      | [] => [[c]]
      | h :: t => (c :: h) :: t

/-- `parsePaceToSecondsPerMeter` from `utils.ts`: split on a colon, require
exactly two parts, `parseInt` both, reject `NaN` and non-positive totals,
otherwise return seconds per meter.  Strings are modelled by their
character lists. -/
def parsePaceToSecondsPerMeter (pace : List Char) : Option ℚ :=
  if (splitColon pace).length ≠ 2 then none
  else
    match splitColon pace with
    | part0 :: part1 :: _ =>
      match jsParseInt part0, jsParseInt part1 with
      | some minutes, some seconds =>
          if (minutes : ℚ) * 60 + (seconds : ℚ) ≤ 0 then none
          else some (((minutes : ℚ) * 60 + (seconds : ℚ)) / 1000)
      | _, _ => none
    | _ => none

/-! ## Spot selector (`handleSuggestSpots` in `App`) -/

/-- The out-of-range fallback entry (only used at provably in-range
indices). -/
def dfltEntry : ℚ × LatLng := (0, ⟨0, 0⟩)

/-- Ordering of marker entries by along-course distance, the comparator
`(a, b) => a[0] - b[0]`. -/
def keyLE (a b : ℚ × LatLng) : Prop := a.1 ≤ b.1

instance : DecidableRel keyLE := fun a b => inferInstanceAs (Decidable (a.1 ≤ b.1))

instance : IsTotal (ℚ × LatLng) keyLE := ⟨fun a b => le_total a.1 b.1⟩

instance : IsTrans (ℚ × LatLng) keyLE := ⟨fun _ _ _ h1 h2 => le_trans h1 h2⟩

/-- `Array.from(markerPositions.entries()).filter(d ≥ skip).sort(asc)` —
the preprocessing of `handleSuggestSpots`. -/
def filterAvailable (markers : List (ℚ × LatLng)) (skipFirstKm : ℚ) :
    List (ℚ × LatLng) :=
  List.insertionSort keyLE (markers.filter (fun e => skipFirstKm * 1000 ≤ e.1))

/-- JavaScript `Math.round`: round half away from zero toward `+∞`. -/
def jsRound (q : ℚ) : ℤ := ⌊q + 1 / 2⌋

/-- The `maxSpread` branch of `handleSuggestSpots`. -/
def maxSpreadSelect (available : List (ℚ × LatLng)) (numToSelect : ℕ) :
    List ℚ :=
  if numToSelect = 1 ∧ 0 < available.length then
    [(available.getD (available.length - 1) dfltEntry).1]
  else if 1 < numToSelect ∧ 1 < available.length then
    (List.range numToSelect).map (fun (i : ℕ) =>
      (available.getD
        ((max 0 (min (jsRound ((i : ℚ) *
            (((available.length : ℚ) - 1) / ((numToSelect : ℚ) - 1))))
          ((available.length : ℤ) - 1))).toNat) dfltEntry).1)
  else []

/-- `spectatorTimeSeconds`: straight-line distance over the constant speed
for walking and cycling; `none` models the JavaScript `Infinity` used for
transit. -/
def spectatorTimeSeconds (profile : TravelProfile) (straightLineDist : ℚ) :
    Option ℚ :=
  match profile with
  | .walking => some (straightLineDist / AVG_WALKING_SPEED_MPS)
  | .cycling => some (straightLineDist / AVG_CYCLING_SPEED_MPS)
  | .transit => none

/-- The crossing penalty applied to a candidate hop. -/
def crossingPenalty (crossing : LatLng → LatLng → Bool) (a b : LatLng) : ℚ :=
  if crossing a b then COURSE_CROSSING_PENALTY_SECONDS else 0

/-- `isFeasible` for one candidate: `runnerTimeSeconds >
spectatorTimeSeconds + crossingPenalty + SPECTATOR_BUFFER_SECONDS`.  A
`none` (infinite) spectator time makes the strict comparison false, as in
JavaScript where any finite number compared `> Infinity + _` is false. -/
def isFeasible (dist : LatLng → LatLng → ℚ) (crossing : LatLng → LatLng → Bool)
    (profile : TravelProfile) (runnerSecondsPerMeter : ℚ)
    (lastD : ℚ) (lastP : LatLng) (cand : ℚ × LatLng) : Bool :=
  let straightLineDist := dist lastP cand.2
  let runnerTimeSeconds := (cand.1 - lastD) * runnerSecondsPerMeter
  let penalty := crossingPenalty crossing lastP cand.2
  match spectatorTimeSeconds profile straightLineDist with
  | none => false
  | some s => decide (s + penalty + SPECTATOR_BUFFER_SECONDS < runnerTimeSeconds)

/-- `x < m` where `m : Option ℚ` models `minFeasibleStraightLineDist`
initialised to `Infinity` (`none`): everything is below `Infinity`. -/
def ltOptInf (x : ℚ) : Option ℚ → Bool
  | none => true
  | some m => decide (x < m)

/-- The inner `for` loop of the `minTravel` branch: scan the candidate
indices, keeping the feasible candidate of strictly smallest straight-line
distance (`bestNextSpotIndex` / `minFeasibleStraightLineDist`). -/
def scanBest (dist : LatLng → LatLng → ℚ) (crossing : LatLng → LatLng → Bool)
    (profile : TravelProfile) (runnerSecondsPerMeter : ℚ)
    (entries : List (ℚ × LatLng)) (used : List ℕ) (lastD : ℚ) (lastP : LatLng) :
    List ℕ → Option ℕ → Option ℚ → Option ℕ × Option ℚ
  | [], best, minD => (best, minD)
  | i :: rest, best, minD =>
    if i ∈ used then
      scanBest dist crossing profile runnerSecondsPerMeter entries used lastD lastP
        rest best minD
    else
      if isFeasible dist crossing profile runnerSecondsPerMeter lastD lastP
          (entries.getD i dfltEntry)
          && ltOptInf (dist lastP (entries.getD i dfltEntry).2) minD then
        scanBest dist crossing profile runnerSecondsPerMeter entries used lastD lastP
          rest (some i) (some (dist lastP (entries.getD i dfltEntry).2))
      else
        scanBest dist crossing profile runnerSecondsPerMeter entries used lastD lastP
          rest best minD

/-- One pass of the candidate scan over all indices, returning
`bestNextSpotIndex` (or `none` for the sentinel `-1`). -/
def findBestNext (dist : LatLng → LatLng → ℚ) (crossing : LatLng → LatLng → Bool)
    (profile : TravelProfile) (runnerSecondsPerMeter : ℚ)
    (entries : List (ℚ × LatLng)) (used : List ℕ) (lastD : ℚ) (lastP : LatLng) :
    Option ℕ :=
  (scanBest dist crossing profile runnerSecondsPerMeter entries used lastD lastP
    (List.range entries.length) none none).1

/-- The greedy `while (suggestedDistances.length < numToSelect)` loop; the
fuel argument is the number of spots still to add. -/
def minTravelGo (dist : LatLng → LatLng → ℚ) (crossing : LatLng → LatLng → Bool)
    (profile : TravelProfile) (runnerSecondsPerMeter : ℚ)
    (entries : List (ℚ × LatLng)) :
    ℕ → List ℚ → ℚ → LatLng → List ℕ → List ℚ
  | 0, acc, _, _, _ => acc
  | fuel + 1, acc, lastD, lastP, used =>
    match findBestNext dist crossing profile runnerSecondsPerMeter entries used
        lastD lastP with
    | none => acc
    | some i =>
      minTravelGo dist crossing profile runnerSecondsPerMeter entries
        fuel (acc ++ [(entries.getD i dfltEntry).1]) (entries.getD i dfltEntry).1
        (entries.getD i dfltEntry).2 (i :: used)

/-- `handleSuggestSpots` from `App`.  `markers` models
`markerPositions.entries()` in insertion order; `hasCourse` models
`gpxCourseLine !== null`. The result is `none` when the handler returns
after the `alert` on an unparseable pace (no state mutation), and
`some l` when it ends by `setSelectedSpots(new Set(l))`. -/
def handleSuggestSpots (dist : LatLng → LatLng → ℚ)
    (crossing : LatLng → LatLng → Bool) (markers : List (ℚ × LatLng))
    (numSpotsToSuggest : ℤ) (strategy : SuggestionStrategy) (runnerPace : List Char)
    (profile : TravelProfile) (skipFirstKm : ℚ) (hasCourse : Bool) :
    Option (List ℚ) :=
  if filterAvailable markers skipFirstKm = [] ∨ numSpotsToSuggest ≤ 0 ∨
      hasCourse = false then
    some []
  else
    match strategy with
    | .maxSpread =>
      some (maxSpreadSelect (filterAvailable markers skipFirstKm)
        (min numSpotsToSuggest.toNat (filterAvailable markers skipFirstKm).length))
    | .minTravel =>
      match parsePaceToSecondsPerMeter runnerPace with
      | none => none
      | some runnerSecondsPerMeter =>
        match filterAvailable markers skipFirstKm with
        | [] => none
        | first :: _ =>
          some (minTravelGo dist crossing profile runnerSecondsPerMeter
            (filterAvailable markers skipFirstKm)
            (min numSpotsToSuggest.toNat (filterAvailable markers skipFirstKm).length - 1)
            [first.1] first.1 first.2 [0])

/-- The effect of one suggestion run on the `selectedSpots` state: an
aborted run (`none`) leaves the previous set untouched, a completed run
replaces it wholesale. -/
def updateSelectedSpots (prev : Finset ℚ) (result : Option (List ℚ)) : Finset ℚ :=
  match result with
  | none => prev
  | some l => l.toFinset

/-! ## Course indexer (`MapComponent` candidate-spot generation effect) -/

/-- Linear interpolation of the marker position inside a segment:
`prev + (cur - prev) * r` on both coordinates. -/
def interpPoint (prev cur : LatLng) (r : ℚ) : LatLng :=
  ⟨prev.lat + (cur.lat - prev.lat) * r, prev.lng + (cur.lng - prev.lng) * r⟩

/-- The inner `while (totalDistance + segmentDistance >= next)` loop of the
indexing pass, emitting one interpolated marker per crossed threshold and
advancing the threshold by `I`.  When the loop body would divide by a
zero `segD` (producing `NaN` coordinates in JavaScript), the whole pass is
flagged with `none`. -/
def emitLoop (I : ℚ) (hI : 0 < I) (prev cur : LatLng) (segD totalD : ℚ)
    (next : ℚ) : Option (List (ℚ × LatLng) × ℚ) :=
  if h : next ≤ totalD + segD then
    if hz : segD = 0 then none
    else
      match emitLoop I hI prev cur segD totalD (next + I) with
      | none => none
      | some (rest, finalNext) =>
        some ((next, interpPoint prev cur ((next - totalD) / segD)) :: rest, finalNext)
  else some ([], next)
termination_by (⌊(totalD + segD - next) / I⌋ + 1).toNat
decreasing_by
  have hx : (0 : ℚ) ≤ totalD + segD - next := by linarith
  have h2 : (totalD + segD - (next + I)) / I = (totalD + segD - next) / I - 1 := by
    field_simp
    ring
  have h3 : (0 : ℤ) ≤ ⌊(totalD + segD - next) / I⌋ :=
    Int.floor_nonneg.mpr (div_nonneg hx (le_of_lt hI))
  have h4 : ⌊(totalD + segD - (next + I)) / I⌋ = ⌊(totalD + segD - next) / I⌋ - 1 := by
    rw [h2, Int.floor_sub_one]
  omega

/-- One segment of the indexing pass: run the 50 m marker loop and the
5 km marker loop over the segment, then advance `totalDistance` and
recurse over the remaining points. -/
def segmentLoop (d : LatLng → LatLng → ℚ) (I : ℚ) (hI : 0 < I) :
    LatLng → List LatLng → ℚ → ℚ → ℚ →
    Option (List (ℚ × LatLng) × List (ℚ × LatLng) × ℚ)
  | _, [], totalD, _, _ => some ([], [], totalD)
  | prev, cur :: rest, totalD, nextSpot, nextFive =>
    match emitLoop I hI prev cur (d prev cur) totalD nextSpot with
    | none => none
    | some (ems, nextSpot') =>
      match emitLoop 5000 (by norm_num) prev cur (d prev cur) totalD nextFive with
      | none => none
      | some (fives, nextFive') =>
        match segmentLoop d I hI cur rest (totalD + d prev cur) nextSpot' nextFive' with
        | none => none
        | some (m, f, total) => some (ems ++ m, fives ++ f, total)

/-- JavaScript `Map.set`: replace in place when the key exists, otherwise
append. -/
def mapSet (m : List (ℚ × LatLng)) (k : ℚ) (v : LatLng) : List (ℚ × LatLng) :=
  if m.any (fun e => e.1 = k) then
    m.map (fun e => if e.1 = k then (e.1, v) else e)
  else m ++ [(k, v)]

/-- The whole candidate-generation pass of `MapComponent` for a loaded
course: walk the segments emitting interval markers and 5 km markers, then
`newMarkerPositions.set(totalTrackDistance, finishLatLng)`.  A course with
fewer than two points yields empty outputs.  The result triple is
(candidate markers, 5 km markers, total track distance). -/
def buildCourseIndex (d : LatLng → LatLng → ℚ) (I : ℚ) (hI : 0 < I)
    (points : List LatLng) :
    Option (List (ℚ × LatLng) × List (ℚ × LatLng) × ℚ) :=
  match points with
  | p0 :: p1 :: rest =>
    match segmentLoop d I hI p0 (p1 :: rest) 0 I 5000 with
    | none => none
    | some (m, f, total) =>
      some (mapSet m total ((p1 :: rest).getLast (List.cons_ne_nil p1 rest)), f, total)
  | _ => some ([], [], 0)

/-! ## Trail projector (`PlannerSidebar.tsx`, `findNearestPointOnTrail`
and `calculateDistanceAlongTrail`) -/

/-- `cumulativeDistances`: `[0]` extended by one running total per
point. -/
def cumDistAux (d : LatLng → LatLng → ℚ) : ℚ → LatLng → List LatLng → List ℚ
  | _, _, [] => []
  | total, prev, cur :: rest =>
    let t := total + d prev cur
    t :: cumDistAux d t cur rest

/-- The cumulative-distance table aligned to the course points:
`table[0] = 0`, `table[i] = table[i-1] + d(points[i-1], points[i])`. -/
def cumulativeDistances (d : LatLng → LatLng → ℚ) (points : List LatLng) :
    List ℚ :=
  match points with
  | [] => []
  | p :: rest => 0 :: cumDistAux d 0 p rest

/-- The loop body of `findNearestPointOnTrail` for one segment: planar
dot-product projection with the `dot_vv < 1e-12` guard, clamped to
`[0, 1]`, and the interpolated point on the segment.  Returns the clamped
fraction and the candidate point. -/
def segProj (latlng p1 p2 : LatLng) : ℚ × LatLng :=
  let vx := p2.lng - p1.lng
  let vy := p2.lat - p1.lat
  let wx := latlng.lng - p1.lng
  let wy := latlng.lat - p1.lat
  let dotWV := wx * vx + wy * vy
  let dotVV := vx * vx + vy * vy
  let t : ℚ := if dotVV < 1 / 1000000000000 then 0 else dotWV / dotVV
  let frac := max 0 (min 1 t)
  (frac, ⟨p1.lat + frac * vy, p1.lng + frac * vx⟩)

/-- The scan over consecutive segments in `findNearestPointOnTrail`,
carrying `(minDistance, closestPoint, closestSegmentIndex, closestRatio)`;
`none` in the first component is the initial `Infinity`.  Zero-length
segments (by real distance `d`) are skipped. -/
def scanNearest (d : LatLng → LatLng → ℚ) (latlng : LatLng) :
    LatLng → List LatLng → ℕ → Option ℚ × LatLng × ℕ × ℚ →
    Option ℚ × LatLng × ℕ × ℚ
  | _, [], _, st => st
  | p1, p2 :: rest, i, st =>
    if d p1 p2 = 0 then scanNearest d latlng p2 rest (i + 1) st
    else
      if ltOptInf (d latlng (segProj latlng p1 p2).2) st.1 then
        scanNearest d latlng p2 rest (i + 1)
          (some (d latlng (segProj latlng p1 p2).2), (segProj latlng p1 p2).2, i,
            (segProj latlng p1 p2).1)
      else scanNearest d latlng p2 rest (i + 1) st

/-- `findNearestPointOnTrail`: nearest perpendicular distance, projected
point, index of the segment start, and clamped fraction along that
segment. -/
def findNearestPointOnTrail (d : LatLng → LatLng → ℚ) (latlng : LatLng)
    (trailPoints : List LatLng) : Option ℚ × LatLng × ℕ × ℚ :=
  match trailPoints with
  | [] => (none, default, 0, 0)
  | p :: rest => scanNearest d latlng p rest 0 (none, p, 0, 0)

/-- `calculateDistanceAlongTrail`: cumulative distance at the segment
start plus the proportional distance along the segment. -/
def calculateDistanceAlongTrail (d : LatLng → LatLng → ℚ) (segmentIndex : ℕ)
    (frac : ℚ) (trailPoints : List LatLng) (cumulative : List ℚ) : ℚ :=
  let baseDistance := cumulative.getD segmentIndex 0
  let p1 := trailPoints.getD segmentIndex default
  let p2 := trailPoints.getD (segmentIndex + 1) default
  baseDistance + frac * d p1 p2

/-! ## Crossing detector (inside the `minTravel` loop of `App`) -/

/-- The `for (const feature of intersections.features)` loop with its
`break`: true as soon as one intersection point is farther than 10 m from
both endpoints. -/
def hasTrueIntersection (dT : LatLng → LatLng → ℚ) (startPt endPt : LatLng) :
    List LatLng → Bool
  | [] => false
  | q :: rest =>
    if 10 < dT startPt q ∧ 10 < dT endPt q then true
    else hasTrueIntersection dT startPt endPt rest

/-- The crossing detection of `handleSuggestSpots`: given the geometric
intersection points of the course line with the spectator segment
(computed externally by turf `lineIntersect`), report a true crossing when
some intersection point is more than 10 m from both segment endpoints;
with no intersection points, report false. -/
def detectTrueCrossing (dT : LatLng → LatLng → ℚ)
    (intersections : List LatLng) (startPt endPt : LatLng) : Bool :=
  if 0 < intersections.length then
    hasTrueIntersection dT startPt endPt intersections
  else false

/-! ## A concrete model distance

The external great-circle distance is abstract in all theorems; concrete
witnesses instantiate it with the taxicab metric below, which shares the
properties the theorems assume of it (nonnegativity, identity of
indiscernibles, symmetry). -/

/-- Taxicab metric on raw coordinates, used to instantiate the abstract
external distance in witnesses and counterexamples. -/
def taxicab (a b : LatLng) : ℚ := |a.lat - b.lat| + |a.lng - b.lng|

theorem taxicab_nonneg (a b : LatLng) : 0 ≤ taxicab a b :=
  add_nonneg (abs_nonneg _) (abs_nonneg _)

theorem taxicab_self (a : LatLng) : taxicab a a = 0 := by
  simp [taxicab]

theorem taxicab_eq_zero {a b : LatLng} (h : taxicab a b = 0) : a = b := by
  unfold taxicab at h
  have h1 : |a.lat - b.lat| = 0 ∧ |a.lng - b.lng| = 0 := by
    constructor <;> nlinarith [abs_nonneg (a.lat - b.lat), abs_nonneg (a.lng - b.lng)]
  obtain ⟨c1, c2⟩ := h1
  have e1 : a.lat = b.lat := by
    have := abs_eq_zero.mp c1; linarith
  have e2 : a.lng = b.lng := by
    have := abs_eq_zero.mp c2; linarith
  cases a; cases b; simp_all


/-! ## Helper lemmas -/

theorem parsePace_pos {pace : List Char} {r : ℚ}
    (h : parsePaceToSecondsPerMeter pace = some r) : 0 < r := by
  unfold parsePaceToSecondsPerMeter at h
  split_ifs at h with hl
  split at h
  · split at h
    · split_ifs at h with ht
      push_neg at ht
      rename_i minutes seconds hm hs
      have hr : ((minutes : ℚ) * 60 + (seconds : ℚ)) / 1000 = r := by
        simpa using h
      rw [← hr]
      positivity
    · exact absurd h (by simp)
  · exact absurd h (by simp)

/-! ## C8 — pace parser failure characterisation -/

/-- C8: for every input string, the pace parser fails (returns `none`)
exactly when the string does not split into two colon-separated parts, a
part yields no number under `parseInt`, or the total seconds per kilometer
is non-positive; otherwise it returns `(minutes * 60 + seconds) / 1000`
seconds per meter. -/
theorem pace_parse_characterisation (pace : List Char) :
    (parsePaceToSecondsPerMeter pace = none ↔
      ((splitColon pace).length ≠ 2 ∨
       (∃ p0 p1, splitColon pace = [p0, p1] ∧
         (jsParseInt p0 = none ∨ jsParseInt p1 = none ∨
          ∃ m s : ℤ, jsParseInt p0 = some m ∧ jsParseInt p1 = some s ∧
            (m : ℚ) * 60 + (s : ℚ) ≤ 0)))) ∧
    (∀ p0 p1 (m s : ℤ), splitColon pace = [p0, p1] →
      jsParseInt p0 = some m → jsParseInt p1 = some s →
      0 < (m : ℚ) * 60 + (s : ℚ) →
      parsePaceToSecondsPerMeter pace =
        some (((m : ℚ) * 60 + (s : ℚ)) / 1000)) := by
  unfold parsePaceToSecondsPerMeter
  rcases hp : splitColon pace with _ | ⟨p0, rest⟩
  · simp
  · rcases rest with _ | ⟨p1, rest'⟩
    · simp
    · rcases rest' with _ | ⟨p2, rest''⟩
      · constructor
        · cases hm : jsParseInt p0 with
          | none =>
            constructor
            · intro _
              exact Or.inr ⟨p0, p1, rfl, Or.inl hm⟩
            · intro _
              simp [hm]
          | some m =>
            cases hs : jsParseInt p1 with
            | none =>
              constructor
              · intro _
                exact Or.inr ⟨p0, p1, rfl, Or.inr (Or.inl hs)⟩
              · intro _
                simp [hm, hs]
            | some s =>
              by_cases ht : (m : ℚ) * 60 + (s : ℚ) ≤ 0
              · constructor
                · intro _
                  exact Or.inr ⟨p0, p1, rfl, Or.inr (Or.inr ⟨m, s, hm, hs, ht⟩)⟩
                · intro _
                  simp [hm, hs, ht]
              · constructor
                · intro hcon
                  simp [hm, hs, ht] at hcon
                · rintro (h1 | ⟨q0, q1, heq, hrest⟩)
                  · simp at h1
                  · obtain ⟨e1, e2⟩ : p0 = q0 ∧ p1 = q1 := by simpa using heq
                    subst e1; subst e2
                    rcases hrest with h2 | h3 | ⟨m2, s2, hm2, hs2, ht2⟩
                    · rw [hm] at h2; exact absurd h2 (by simp)
                    · rw [hs] at h3; exact absurd h3 (by simp)
                    · rw [hm] at hm2; rw [hs] at hs2
                      rw [Option.some.injEq] at hm2 hs2
                      subst hm2; subst hs2
                      exact absurd ht2 ht
        · intro q0 q1 m s heq hm hs ht
          obtain ⟨e1, e2⟩ : p0 = q0 ∧ p1 = q1 := by simpa using heq
          subst e1; subst e2
          simp only [hm, hs, List.length_cons, List.length_nil, ne_eq]
          norm_num
          intro hc
          linarith
      · simp [show (p0 :: p1 :: p2 :: rest'').length ≠ 2 from by simp]

/-- C8 witness: the characterisation instantiated at the parseable pace
string `5:30`. -/
theorem pace_parse_characterisation_witness :
    splitColon ((r"5:30").data) = [['5'], ['3', '0']] ∧
    jsParseInt (['5']) = some 5 ∧
    jsParseInt (['3', '0']) = some 30 ∧
    (0 : ℚ) < (5 : ℚ) * 60 + (30 : ℚ) ∧
    parsePaceToSecondsPerMeter ((r"5:30").data) =
      some (((5 : ℚ) * 60 + (30 : ℚ)) / 1000) := by
  refine ⟨by decide, by decide, by decide, by norm_num, ?_⟩
  exact (pace_parse_characterisation ((r"5:30").data)).2 ['5'] ['3', '0'] 5 30
    (by decide) (by decide) (by decide) (by norm_num)

/-! ## C4 — crossing detector characterisation -/

theorem hasTrueIntersection_iff (dT : LatLng → LatLng → ℚ) (a b : LatLng)
    (l : List LatLng) :
    hasTrueIntersection dT a b l = true ↔
      ∃ q ∈ l, 10 < dT a q ∧ 10 < dT b q := by
  induction l with
  | nil => simp [hasTrueIntersection]
  | cons q rest ih =>
    unfold hasTrueIntersection
    by_cases hq : 10 < dT a q ∧ 10 < dT b q
    · simp only [if_pos hq, true_iff]
      exact ⟨q, List.mem_cons_self q rest, hq⟩
    · rw [if_neg hq, ih]
      constructor
      · rintro ⟨x, hx, hc⟩
        exact ⟨x, List.mem_cons_of_mem _ hx, hc⟩
      · rintro ⟨x, hx, hc⟩
        rcases List.mem_cons.mp hx with rfl | hx2
        · exact absurd hc hq
        · exact ⟨x, hx2, hc⟩

/-- C4: the crossing detector returns true exactly when some geometric
intersection point of the course path with the spectator segment lies more
than 10 meters from both segment endpoints, and returns false when there
are no intersection points. -/
theorem crossing_detector_characterisation (dT : LatLng → LatLng → ℚ)
    (intersections : List LatLng) (a b : LatLng) :
    (detectTrueCrossing dT intersections a b = true ↔
      ∃ q ∈ intersections, 10 < dT a q ∧ 10 < dT b q) ∧
    (intersections = [] → detectTrueCrossing dT intersections a b = false) := by
  constructor
  · unfold detectTrueCrossing
    cases intersections with
    | nil => simp
    | cons q0 rest =>
      rw [if_pos (by simp)]
      exact hasTrueIntersection_iff dT a b (q0 :: rest)
  · intro h
    subst h
    rfl

/-- C4 witness: the characterisation instantiated at a concrete
intersection list containing one true crossing point. -/
theorem crossing_detector_characterisation_witness :
    (detectTrueCrossing taxicab [⟨0, 500⟩] ⟨0, 0⟩ ⟨0, 1000⟩ = true ↔
      ∃ q ∈ [(⟨0, 500⟩ : LatLng)], 10 < taxicab ⟨0, 0⟩ q ∧ 10 < taxicab ⟨0, 1000⟩ q) ∧
    ([(⟨0, 500⟩ : LatLng)] = [] →
      detectTrueCrossing taxicab [⟨0, 500⟩] ⟨0, 0⟩ ⟨0, 1000⟩ = false) :=
  crossing_detector_characterisation taxicab [⟨0, 500⟩] ⟨0, 0⟩ ⟨0, 1000⟩

theorem scanBest_nil (dist : LatLng → LatLng → ℚ) (crossing : LatLng → LatLng → Bool)
    (profile : TravelProfile) (rpm : ℚ) (entries : List (ℚ × LatLng))
    (used : List ℕ) (lastD : ℚ) (lastP : LatLng) (best : Option ℕ) (minD : Option ℚ) :
    scanBest dist crossing profile rpm entries used lastD lastP [] best minD =
      (best, minD) := rfl

theorem scanBest_cons (dist : LatLng → LatLng → ℚ) (crossing : LatLng → LatLng → Bool)
    (profile : TravelProfile) (rpm : ℚ) (entries : List (ℚ × LatLng))
    (used : List ℕ) (lastD : ℚ) (lastP : LatLng) (i : ℕ) (rest : List ℕ)
    (best : Option ℕ) (minD : Option ℚ) :
    scanBest dist crossing profile rpm entries used lastD lastP (i :: rest) best minD =
      if i ∈ used then
        scanBest dist crossing profile rpm entries used lastD lastP rest best minD
      else
        if isFeasible dist crossing profile rpm lastD lastP (entries.getD i dfltEntry)
            && ltOptInf (dist lastP (entries.getD i dfltEntry).2) minD then
          scanBest dist crossing profile rpm entries used lastD lastP rest (some i)
            (some (dist lastP (entries.getD i dfltEntry).2))
        else
          scanBest dist crossing profile rpm entries used lastD lastP rest best minD := rfl

theorem scanBest_go (dist : LatLng → LatLng → ℚ) (crossing : LatLng → LatLng → Bool)
    (profile : TravelProfile) (rpm : ℚ) (entries : List (ℚ × LatLng))
    (used : List ℕ) (lastD : ℚ) (lastP : LatLng) :
    ∀ (idxs : List ℕ) (best : Option ℕ) (minD : Option ℚ),
    ((best = none ∧ minD = none) ∨
      (∃ b m, best = some b ∧ minD = some m ∧ b ∉ used ∧ b < entries.length ∧
        isFeasible dist crossing profile rpm lastD lastP (entries.getD b dfltEntry) = true ∧
        m = dist lastP (entries.getD b dfltEntry).2)) →
    (∀ j ∈ idxs, j < entries.length) →
    ((((scanBest dist crossing profile rpm entries used lastD lastP idxs best minD).1 = none ∧
       (scanBest dist crossing profile rpm entries used lastD lastP idxs best minD).2 = none) ∨
      (∃ b m,
        (scanBest dist crossing profile rpm entries used lastD lastP idxs best minD).1 = some b ∧
        (scanBest dist crossing profile rpm entries used lastD lastP idxs best minD).2 = some m ∧
        b ∉ used ∧ b < entries.length ∧
        isFeasible dist crossing profile rpm lastD lastP (entries.getD b dfltEntry) = true ∧
        m = dist lastP (entries.getD b dfltEntry).2)) ∧
     (∀ j ∈ idxs, j ∉ used →
       isFeasible dist crossing profile rpm lastD lastP (entries.getD j dfltEntry) = true →
       ∃ mv, (scanBest dist crossing profile rpm entries used lastD lastP idxs best minD).2 = some mv ∧
         mv ≤ dist lastP (entries.getD j dfltEntry).2) ∧
     (∀ m0, minD = some m0 →
       ∃ mv, (scanBest dist crossing profile rpm entries used lastD lastP idxs best minD).2 = some mv ∧
         mv ≤ m0)) := by
  intro idxs
  induction idxs with
  | nil =>
    intro best minD hinv hlen
    rw [scanBest_nil]
    refine ⟨hinv, ?_, ?_⟩
    · intro j hj; exact absurd hj (List.not_mem_nil j)
    · intro m0 hm0
      exact ⟨m0, hm0, le_refl m0⟩
  | cons i rest ih =>
    intro best minD hinv hlen
    by_cases hu : i ∈ used
    · rw [scanBest_cons, if_pos hu]
      obtain ⟨h1, h2, h3⟩ := ih best minD hinv (fun j hj => hlen j (List.mem_cons_of_mem _ hj))
      refine ⟨h1, ?_, h3⟩
      intro j hj hju hjf
      rcases List.mem_cons.mp hj with rfl | hj'
      · exact absurd hu hju
      · exact h2 j hj' hju hjf
    · by_cases hcond : (isFeasible dist crossing profile rpm lastD lastP
          (entries.getD i dfltEntry) &&
          ltOptInf (dist lastP (entries.getD i dfltEntry).2) minD) = true
      · rw [scanBest_cons, if_neg hu, if_pos hcond]
        rw [Bool.and_eq_true] at hcond
        have hinv2 : (some i = (none : Option ℕ) ∧
            some (dist lastP (entries.getD i dfltEntry).2) = (none : Option ℚ)) ∨
            (∃ b m, some i = some b ∧
              some (dist lastP (entries.getD i dfltEntry).2) = some m ∧ b ∉ used ∧
              b < entries.length ∧
              isFeasible dist crossing profile rpm lastD lastP (entries.getD b dfltEntry) = true ∧
              m = dist lastP (entries.getD b dfltEntry).2) :=
          Or.inr ⟨i, dist lastP (entries.getD i dfltEntry).2, rfl, rfl, hu,
            hlen i (List.mem_cons_self i rest), hcond.1, rfl⟩
        obtain ⟨h1, h2, h3⟩ := ih (some i) (some (dist lastP (entries.getD i dfltEntry).2))
          hinv2 (fun j hj => hlen j (List.mem_cons_of_mem _ hj))
        refine ⟨h1, ?_, ?_⟩
        · intro j hj hju hjf
          rcases List.mem_cons.mp hj with rfl | hj'
          · exact h3 (dist lastP (entries.getD j dfltEntry).2) rfl
          · exact h2 j hj' hju hjf
        · intro m0 hm0
          obtain ⟨mv, hmv, hle⟩ := h3 (dist lastP (entries.getD i dfltEntry).2) rfl
          refine ⟨mv, hmv, le_trans hle ?_⟩
          subst hm0
          have hlt := hcond.2
          unfold ltOptInf at hlt
          exact le_of_lt (by simpa using hlt)
      · rw [scanBest_cons, if_neg hu, if_neg hcond]
        obtain ⟨h1, h2, h3⟩ := ih best minD hinv (fun j hj => hlen j (List.mem_cons_of_mem _ hj))
        refine ⟨h1, ?_, h3⟩
        intro j hj hju hjf
        rcases List.mem_cons.mp hj with rfl | hj'
        · rw [Bool.and_eq_true] at hcond
          push_neg at hcond
          have hlt := hcond hjf
          cases hmd : minD with
          | none =>
            rw [hmd] at hlt
            exact absurd (by simp [ltOptInf]) hlt
          | some m0 =>
            rw [hmd] at hlt
            have hge : m0 ≤ dist lastP (entries.getD j dfltEntry).2 := by
              have hnlt : ¬ (dist lastP (entries.getD j dfltEntry).2 < m0) := by
                simpa [ltOptInf] using hlt
              linarith [not_lt.mp hnlt]
            obtain ⟨mv, hmv, hle⟩ := h3 m0 hmd
            rw [← hmd]
            exact ⟨mv, hmv, le_trans hle hge⟩
        · exact h2 j hj' hju hjf

theorem findBestNext_some (dist : LatLng → LatLng → ℚ) (crossing : LatLng → LatLng → Bool)
    (profile : TravelProfile) (rpm : ℚ) (entries : List (ℚ × LatLng))
    (used : List ℕ) (lastD : ℚ) (lastP : LatLng) {i : ℕ}
    (h : findBestNext dist crossing profile rpm entries used lastD lastP = some i) :
    i ∉ used ∧ i < entries.length ∧
    isFeasible dist crossing profile rpm lastD lastP (entries.getD i dfltEntry) = true ∧
    ∀ j, j < entries.length → j ∉ used →
      isFeasible dist crossing profile rpm lastD lastP (entries.getD j dfltEntry) = true →
      dist lastP (entries.getD i dfltEntry).2 ≤ dist lastP (entries.getD j dfltEntry).2 := by
  obtain ⟨h1, h2, h3⟩ := scanBest_go dist crossing profile rpm entries used lastD lastP
    (List.range entries.length) none none (Or.inl ⟨rfl, rfl⟩)
    (fun j hj => List.mem_range.mp hj)
  unfold findBestNext at h
  rcases h1 with ⟨hb, _⟩ | ⟨b, m, hb, hm, hbu, hbl, hbf, hme⟩
  · rw [h] at hb; exact absurd hb (by simp)
  · rw [h] at hb
    obtain rfl : i = b := by simpa using hb
    refine ⟨hbu, hbl, hbf, ?_⟩
    intro j hjl hju hjf
    obtain ⟨mv, hmv, hle⟩ := h2 j (List.mem_range.mpr hjl) hju hjf
    rw [hm] at hmv
    obtain rfl : m = mv := by simpa using hmv
    rw [← hme]
    exact hle

theorem findBestNext_none (dist : LatLng → LatLng → ℚ) (crossing : LatLng → LatLng → Bool)
    (profile : TravelProfile) (rpm : ℚ) (entries : List (ℚ × LatLng))
    (used : List ℕ) (lastD : ℚ) (lastP : LatLng)
    (h : findBestNext dist crossing profile rpm entries used lastD lastP = none) :
    ∀ j, j < entries.length → j ∉ used →
      isFeasible dist crossing profile rpm lastD lastP (entries.getD j dfltEntry) = false := by
  obtain ⟨h1, h2, h3⟩ := scanBest_go dist crossing profile rpm entries used lastD lastP
    (List.range entries.length) none none (Or.inl ⟨rfl, rfl⟩)
    (fun j hj => List.mem_range.mp hj)
  unfold findBestNext at h
  intro j hjl hju
  by_contra hne
  have hjf : isFeasible dist crossing profile rpm lastD lastP (entries.getD j dfltEntry) = true := by
    cases hv : isFeasible dist crossing profile rpm lastD lastP (entries.getD j dfltEntry)
    · exact absurd hv hne
    · rfl
  obtain ⟨mv, hmv, _⟩ := h2 j (List.mem_range.mpr hjl) hju hjf
  rcases h1 with ⟨_, hn⟩ | ⟨b, m, hb, _, _⟩
  · rw [hn] at hmv; exact absurd hmv (by simp)
  · rw [h] at hb; exact absurd hb (by simp)

theorem isFeasible_iff (dist : LatLng → LatLng → ℚ) (crossing : LatLng → LatLng → Bool)
    (profile : TravelProfile) (rpm : ℚ) (lastD : ℚ) (lastP : LatLng) (cand : ℚ × LatLng) :
    isFeasible dist crossing profile rpm lastD lastP cand = true ↔
      ((profile = TravelProfile.walking ∧
         dist lastP cand.2 / (7 / 5) + (if crossing lastP cand.2 then 300 else 0) + 600 <
           (cand.1 - lastD) * rpm) ∨
       (profile = TravelProfile.cycling ∧
         dist lastP cand.2 / (11 / 2) + (if crossing lastP cand.2 then 300 else 0) + 600 <
           (cand.1 - lastD) * rpm)) := by
  cases profile <;>
    norm_num [isFeasible, spectatorTimeSeconds, crossingPenalty, AVG_WALKING_SPEED_MPS,
      AVG_CYCLING_SPEED_MPS, SPECTATOR_BUFFER_SECONDS, COURSE_CROSSING_PENALTY_SECONDS] <;>
    first
      | exact fun h => absurd h (by decide)
      | exact ⟨fun h => absurd h (by decide), fun h => absurd h (by decide)⟩

/-! ## C1 — feasibility condition and minimum-travel choice -/

/-- C1: in the `minTravel` strategy, a candidate considered from the
last-selected spot is feasible iff `runnerTimeSeconds >
spectatorTimeSeconds + crossingPenaltySeconds + 600`, where the runner
time is the along-course gap times the pace, the spectator time is the
straight-line distance over 1.4 m/s (walking) or 5.5 m/s (cycling) and is
infinite (never feasible) for transit, and the penalty is 300 seconds
exactly when a true crossing is detected; among all feasible unused
candidates the scan picks one of minimum straight-line distance, and
returns the sentinel `none` only when no unused candidate is feasible. -/
theorem minTravel_step_choice (dist : LatLng → LatLng → ℚ)
    (crossing : LatLng → LatLng → Bool) (profile : TravelProfile) (rpm : ℚ)
    (entries : List (ℚ × LatLng)) (used : List ℕ) (lastD : ℚ) (lastP : LatLng) :
    (∀ cand : ℚ × LatLng,
      isFeasible dist crossing profile rpm lastD lastP cand = true ↔
        ((profile = TravelProfile.walking ∧
           dist lastP cand.2 / (7 / 5) + (if crossing lastP cand.2 then 300 else 0) + 600 <
             (cand.1 - lastD) * rpm) ∨
         (profile = TravelProfile.cycling ∧
           dist lastP cand.2 / (11 / 2) + (if crossing lastP cand.2 then 300 else 0) + 600 <
             (cand.1 - lastD) * rpm))) ∧
    (∀ i, findBestNext dist crossing profile rpm entries used lastD lastP = some i →
      i ∉ used ∧ i < entries.length ∧
      isFeasible dist crossing profile rpm lastD lastP (entries.getD i dfltEntry) = true ∧
      ∀ j, j < entries.length → j ∉ used →
        isFeasible dist crossing profile rpm lastD lastP (entries.getD j dfltEntry) = true →
        dist lastP (entries.getD i dfltEntry).2 ≤ dist lastP (entries.getD j dfltEntry).2) ∧
    (findBestNext dist crossing profile rpm entries used lastD lastP = none →
      ∀ j, j < entries.length → j ∉ used →
        isFeasible dist crossing profile rpm lastD lastP (entries.getD j dfltEntry) = false) :=
  ⟨fun cand => isFeasible_iff dist crossing profile rpm lastD lastP cand,
   fun _ h => findBestNext_some dist crossing profile rpm entries used lastD lastP h,
   fun h => findBestNext_none dist crossing profile rpm entries used lastD lastP h⟩

/-- C1 witness: the step characterisation instantiated at a concrete
two-candidate state. -/
theorem minTravel_step_choice_witness :
    (∀ cand : ℚ × LatLng,
      isFeasible taxicab (fun _ _ => false) TravelProfile.walking 1 0 ⟨0, 0⟩ cand = true ↔
        ((TravelProfile.walking = TravelProfile.walking ∧
           taxicab ⟨0, 0⟩ cand.2 / (7 / 5) +
             (if (fun (_ _ : LatLng) => false) ⟨0, 0⟩ cand.2 then 300 else 0) + 600 <
             (cand.1 - 0) * 1) ∨
         (TravelProfile.walking = TravelProfile.cycling ∧
           taxicab ⟨0, 0⟩ cand.2 / (11 / 2) +
             (if (fun (_ _ : LatLng) => false) ⟨0, 0⟩ cand.2 then 300 else 0) + 600 <
             (cand.1 - 0) * 1))) ∧
    (∀ i, findBestNext taxicab (fun _ _ => false) TravelProfile.walking 1
        [(0, ⟨0, 0⟩), (3000, ⟨0, 1000⟩)] [0] 0 ⟨0, 0⟩ = some i →
      i ∉ [0] ∧ i < [((0 : ℚ), (⟨0, 0⟩ : LatLng)), (3000, ⟨0, 1000⟩)].length ∧
      isFeasible taxicab (fun _ _ => false) TravelProfile.walking 1 0 ⟨0, 0⟩
        ([((0 : ℚ), (⟨0, 0⟩ : LatLng)), (3000, ⟨0, 1000⟩)].getD i dfltEntry) = true ∧
      ∀ j, j < [((0 : ℚ), (⟨0, 0⟩ : LatLng)), (3000, ⟨0, 1000⟩)].length → j ∉ [0] →
        isFeasible taxicab (fun _ _ => false) TravelProfile.walking 1 0 ⟨0, 0⟩
          ([((0 : ℚ), (⟨0, 0⟩ : LatLng)), (3000, ⟨0, 1000⟩)].getD j dfltEntry) = true →
        taxicab ⟨0, 0⟩ ([((0 : ℚ), (⟨0, 0⟩ : LatLng)), (3000, ⟨0, 1000⟩)].getD i dfltEntry).2 ≤
          taxicab ⟨0, 0⟩ ([((0 : ℚ), (⟨0, 0⟩ : LatLng)), (3000, ⟨0, 1000⟩)].getD j dfltEntry).2) ∧
    (findBestNext taxicab (fun _ _ => false) TravelProfile.walking 1
        [(0, ⟨0, 0⟩), (3000, ⟨0, 1000⟩)] [0] 0 ⟨0, 0⟩ = none →
      ∀ j, j < [((0 : ℚ), (⟨0, 0⟩ : LatLng)), (3000, ⟨0, 1000⟩)].length → j ∉ [0] →
        isFeasible taxicab (fun _ _ => false) TravelProfile.walking 1 0 ⟨0, 0⟩
          ([((0 : ℚ), (⟨0, 0⟩ : LatLng)), (3000, ⟨0, 1000⟩)].getD j dfltEntry) = false) :=
  minTravel_step_choice taxicab (fun _ _ => false) TravelProfile.walking 1
    [(0, ⟨0, 0⟩), (3000, ⟨0, 1000⟩)] [0] 0 ⟨0, 0⟩

theorem minTravelGo_zero (dist : LatLng → LatLng → ℚ) (crossing : LatLng → LatLng → Bool)
    (profile : TravelProfile) (rpm : ℚ) (entries : List (ℚ × LatLng))
    (acc : List ℚ) (lastD : ℚ) (lastP : LatLng) (used : List ℕ) :
    minTravelGo dist crossing profile rpm entries 0 acc lastD lastP used = acc := rfl

theorem minTravelGo_succ (dist : LatLng → LatLng → ℚ) (crossing : LatLng → LatLng → Bool)
    (profile : TravelProfile) (rpm : ℚ) (entries : List (ℚ × LatLng)) (fuel : ℕ)
    (acc : List ℚ) (lastD : ℚ) (lastP : LatLng) (used : List ℕ) :
    minTravelGo dist crossing profile rpm entries (fuel + 1) acc lastD lastP used =
      match findBestNext dist crossing profile rpm entries used lastD lastP with
      | none => acc
      | some i =>
        minTravelGo dist crossing profile rpm entries fuel
          (acc ++ [(entries.getD i dfltEntry).1]) (entries.getD i dfltEntry).1
          (entries.getD i dfltEntry).2 (i :: used) := rfl

theorem isFeasible_transit (dist : LatLng → LatLng → ℚ) (crossing : LatLng → LatLng → Bool)
    (rpm : ℚ) (lastD : ℚ) (lastP : LatLng) (cand : ℚ × LatLng) :
    isFeasible dist crossing TravelProfile.transit rpm lastD lastP cand = false := rfl

theorem scanBest_transit (dist : LatLng → LatLng → ℚ) (crossing : LatLng → LatLng → Bool)
    (rpm : ℚ) (entries : List (ℚ × LatLng)) (used : List ℕ) (lastD : ℚ) (lastP : LatLng) :
    ∀ (idxs : List ℕ) (best : Option ℕ) (minD : Option ℚ),
      scanBest dist crossing TravelProfile.transit rpm entries used lastD lastP
        idxs best minD = (best, minD) := by
  intro idxs
  induction idxs with
  | nil => intro best minD; rfl
  | cons i rest ih =>
    intro best minD
    rw [scanBest_cons, isFeasible_transit]
    simp only [Bool.false_and, Bool.false_eq_true, if_false]
    by_cases hu : i ∈ used
    · rw [if_pos hu]; exact ih best minD
    · rw [if_neg hu]; exact ih best minD

theorem findBestNext_transit (dist : LatLng → LatLng → ℚ) (crossing : LatLng → LatLng → Bool)
    (rpm : ℚ) (entries : List (ℚ × LatLng)) (used : List ℕ) (lastD : ℚ) (lastP : LatLng) :
    findBestNext dist crossing TravelProfile.transit rpm entries used lastD lastP = none := by
  unfold findBestNext
  rw [scanBest_transit]

theorem minTravelGo_transit (dist : LatLng → LatLng → ℚ) (crossing : LatLng → LatLng → Bool)
    (rpm : ℚ) (entries : List (ℚ × LatLng)) (fuel : ℕ) (acc : List ℚ) (lastD : ℚ)
    (lastP : LatLng) (used : List ℕ) :
    minTravelGo dist crossing TravelProfile.transit rpm entries fuel acc lastD lastP used =
      acc := by
  cases fuel with
  | zero => rfl
  | succ n => rw [minTravelGo_succ, findBestNext_transit]

theorem filterAvailable_sorted (markers : List (ℚ × LatLng)) (skipFirstKm : ℚ) :
    (filterAvailable markers skipFirstKm).Sorted keyLE :=
  List.sorted_insertionSort keyLE _

/-! ## C10 — transit stops after the seed -/

/-- C10: with strategy `minTravel`, travel profile `transit`, a non-empty
filtered candidate pool, a valid pace and a positive requested count, the
suggestion returns exactly one distance — the smallest filtered candidate
distance: spectator time is infinite for transit, so no candidate after
the seed is ever feasible and the greedy walk stops immediately. -/
theorem transit_minTravel_single (dist : LatLng → LatLng → ℚ)
    (crossing : LatLng → LatLng → Bool) (markers : List (ℚ × LatLng))
    (numSpotsToSuggest : ℤ) (pace : List Char) (skipFirstKm : ℚ)
    (hpool : filterAvailable markers skipFirstKm ≠ [])
    (hnum : 0 < numSpotsToSuggest)
    (hpace : ∃ rpm, parsePaceToSecondsPerMeter pace = some rpm) :
    ∃ e rest, filterAvailable markers skipFirstKm = e :: rest ∧
      handleSuggestSpots dist crossing markers numSpotsToSuggest
        SuggestionStrategy.minTravel pace TravelProfile.transit skipFirstKm true =
        some [e.1] ∧
      ∀ f ∈ filterAvailable markers skipFirstKm, e.1 ≤ f.1 := by
  obtain ⟨e, rest, he⟩ : ∃ e rest, filterAvailable markers skipFirstKm = e :: rest := by
    cases hav : filterAvailable markers skipFirstKm with
    | nil => exact absurd hav hpool
    | cons e rest => exact ⟨e, rest, rfl⟩
  refine ⟨e, rest, he, ?_, ?_⟩
  · unfold handleSuggestSpots
    rw [if_neg (by
      simp only [not_or]
      exact ⟨hpool, not_le.mpr hnum, by simp⟩)]
    obtain ⟨rpm, hrpm⟩ := hpace
    simp only [hrpm, he]
    rw [minTravelGo_transit]
  · intro f hf
    have hs := filterAvailable_sorted markers skipFirstKm
    rw [he] at hs hf
    rcases List.mem_cons.mp hf with rfl | hf'
    · exact le_refl _
    · exact (List.sorted_cons.mp hs).1 f hf'

/-! ## C9 — unparseable pace aborts without mutation -/

/-- C9: a `minTravel` run over a non-empty filtered pool with a pace
string the parser rejects reports a validation failure (the handler
returns after the alert, modelled by `none`) and leaves the `SelectedSpots`
state completely unchanged. -/
theorem invalid_pace_aborts (dist : LatLng → LatLng → ℚ)
    (crossing : LatLng → LatLng → Bool) (markers : List (ℚ × LatLng))
    (numSpotsToSuggest : ℤ) (pace : List Char) (profile : TravelProfile)
    (skipFirstKm : ℚ)
    (hpool : filterAvailable markers skipFirstKm ≠ [])
    (hnum : 0 < numSpotsToSuggest)
    (hpace : parsePaceToSecondsPerMeter pace = none) :
    handleSuggestSpots dist crossing markers numSpotsToSuggest
      SuggestionStrategy.minTravel pace profile skipFirstKm true = none ∧
    ∀ prev : Finset ℚ,
      updateSelectedSpots prev
        (handleSuggestSpots dist crossing markers numSpotsToSuggest
          SuggestionStrategy.minTravel pace profile skipFirstKm true) = prev := by
  have hmain : handleSuggestSpots dist crossing markers numSpotsToSuggest
      SuggestionStrategy.minTravel pace profile skipFirstKm true = none := by
    unfold handleSuggestSpots
    rw [if_neg (by
      simp only [not_or]
      exact ⟨hpool, not_le.mpr hnum, by simp⟩)]
    simp only [hpace]
  refine ⟨hmain, ?_⟩
  intro prev
  rw [hmain]
  rfl



/-- C10 witness: a concrete two-marker pool under transit yields only the
seed spot. -/
theorem transit_minTravel_single_witness :
    (filterAvailable [((1000 : ℚ), (⟨0, 0⟩ : LatLng)), (2000, ⟨0, 1000⟩)] 0 ≠ []) ∧
    (0 : ℤ) < 3 ∧
    (∃ rpm, parsePaceToSecondsPerMeter ((r"5:30").data) = some rpm) ∧
    (∃ e rest, filterAvailable [((1000 : ℚ), (⟨0, 0⟩ : LatLng)), (2000, ⟨0, 1000⟩)] 0 =
        e :: rest ∧
      handleSuggestSpots taxicab (fun _ _ => false)
        [((1000 : ℚ), (⟨0, 0⟩ : LatLng)), (2000, ⟨0, 1000⟩)] 3
        SuggestionStrategy.minTravel ((r"5:30").data) TravelProfile.transit 0 true =
        some [e.1] ∧
      ∀ f ∈ filterAvailable [((1000 : ℚ), (⟨0, 0⟩ : LatLng)), (2000, ⟨0, 1000⟩)] 0,
        e.1 ≤ f.1) := by
  have hpool : filterAvailable [((1000 : ℚ), (⟨0, 0⟩ : LatLng)), (2000, ⟨0, 1000⟩)] 0 ≠ [] := by
    have hev : filterAvailable [((1000 : ℚ), (⟨0, 0⟩ : LatLng)), (2000, ⟨0, 1000⟩)] 0 =
        [((1000 : ℚ), (⟨0, 0⟩ : LatLng)), (2000, ⟨0, 1000⟩)] := by
      norm_num [filterAvailable, List.insertionSort, List.orderedInsert, keyLE]
    rw [hev]
    simp
  have hpace : parsePaceToSecondsPerMeter ((r"5:30").data) =
      some (((5 : ℚ) * 60 + (30 : ℚ)) / 1000) :=
    (pace_parse_characterisation ((r"5:30").data)).2 ['5'] ['3', '0'] 5 30
      (by decide) (by decide) (by decide) (by norm_num)
  refine ⟨hpool, by decide, ⟨((5 : ℚ) * 60 + (30 : ℚ)) / 1000, hpace⟩, ?_⟩
  exact transit_minTravel_single taxicab (fun _ _ => false)
    [((1000 : ℚ), (⟨0, 0⟩ : LatLng)), (2000, ⟨0, 1000⟩)] 3 ((r"5:30").data) 0
    hpool (by decide) ⟨((5 : ℚ) * 60 + (30 : ℚ)) / 1000, hpace⟩

/-- C9 witness: the abort behaviour at the concrete unparseable pace
string `abc`. -/
theorem invalid_pace_aborts_witness :
    (filterAvailable [((1000 : ℚ), (⟨0, 0⟩ : LatLng))] 0 ≠ []) ∧
    (0 : ℤ) < 3 ∧
    parsePaceToSecondsPerMeter ((r"abc").data) = none ∧
    (handleSuggestSpots taxicab (fun _ _ => false) [((1000 : ℚ), (⟨0, 0⟩ : LatLng))] 3
        SuggestionStrategy.minTravel ((r"abc").data) TravelProfile.walking 0 true = none ∧
      ∀ prev : Finset ℚ,
        updateSelectedSpots prev
          (handleSuggestSpots taxicab (fun _ _ => false) [((1000 : ℚ), (⟨0, 0⟩ : LatLng))] 3
            SuggestionStrategy.minTravel ((r"abc").data) TravelProfile.walking 0 true) =
          prev) := by
  have hpool : filterAvailable [((1000 : ℚ), (⟨0, 0⟩ : LatLng))] 0 ≠ [] := by
    have hev : filterAvailable [((1000 : ℚ), (⟨0, 0⟩ : LatLng))] 0 =
        [((1000 : ℚ), (⟨0, 0⟩ : LatLng))] := by
      norm_num [filterAvailable, List.insertionSort, List.orderedInsert, keyLE]
    rw [hev]
    simp
  refine ⟨hpool, by decide, by decide, ?_⟩
  exact invalid_pace_aborts taxicab (fun _ _ => false) [((1000 : ℚ), (⟨0, 0⟩ : LatLng))] 3
    ((r"abc").data) TravelProfile.walking 0 hpool (by decide) (by decide)

theorem getD_mem {α : Type} (l : List α) (n : ℕ) (d : α) (h : n < l.length) :
    l.getD n d ∈ l := by
  rw [List.getD_eq_getElem l d h]
  exact List.getElem_mem h

theorem range_map_getD {α β : Type} (l : List α) (d : α) (f : α → β) :
    (List.range l.length).map (fun i => f (l.getD i d)) = l.map f := by
  induction l with
  | nil => rfl
  | cons a t ih =>
    rw [List.length_cons, List.range_succ_eq_map, List.map_cons, List.map_map]
    congr 1

theorem jsRound_natCast (n : ℕ) : jsRound (n : ℚ) = n := by
  unfold jsRound
  rw [show ((n : ℚ)) = ((n : ℤ) : ℚ) from by push_cast; ring, Int.floor_int_add]
  norm_num

theorem sorted_last_max (l : List (ℚ × LatLng)) (hs : l.Sorted keyLE) :
    ∀ f ∈ l, f.1 ≤ (l.getD (l.length - 1) dfltEntry).1 := by
  induction l with
  | nil => intro f hf; exact absurd hf (List.not_mem_nil f)
  | cons a t ih =>
    intro f hf
    cases t with
    | nil =>
      rcases List.mem_cons.mp hf with rfl | h
      · exact le_refl _
      · exact absurd h (List.not_mem_nil f)
    | cons b t2 =>
      obtain ⟨ha, ht⟩ := List.sorted_cons.mp hs
      have hlast : ((a :: b :: t2).getD ((a :: b :: t2).length - 1) dfltEntry) =
          ((b :: t2).getD ((b :: t2).length - 1) dfltEntry) := by
        simp [List.getD_cons_succ]
      rw [hlast]
      rcases List.mem_cons.mp hf with rfl | h
      · exact ha _ (getD_mem (b :: t2) ((b :: t2).length - 1) dfltEntry (by simp))
      · exact ih ht f h

theorem maxSpread_all (l : List (ℚ × LatLng)) (hne : l ≠ []) :
    maxSpreadSelect l l.length = l.map Prod.fst := by
  rcases l with _ | ⟨a, t⟩
  · exact absurd rfl hne
  · rcases t with _ | ⟨b, t2⟩
    · unfold maxSpreadSelect
      rw [if_pos ⟨rfl, by simp⟩]
      rfl
    · have hlen : (a :: b :: t2).length = t2.length + 2 := by simp
      unfold maxSpreadSelect
      rw [if_neg (by rw [hlen]; rintro ⟨h1, _⟩; omega),
          if_pos ⟨by rw [hlen]; omega, by rw [hlen]; omega⟩]
      rw [← range_map_getD (a :: b :: t2) dfltEntry Prod.fst]
      apply List.map_congr_left
      intro i hi
      have hi2 : i < (a :: b :: t2).length := List.mem_range.mp hi
      have hstep : (((a :: b :: t2).length : ℚ) - 1) / (((a :: b :: t2).length : ℚ) - 1) = 1 := by
        apply div_self
        rw [hlen]
        push_cast
        linarith [Nat.cast_nonneg (α := ℚ) t2.length]
      rw [hstep, mul_one, jsRound_natCast]
      have hmin : min (i : ℤ) (((a :: b :: t2).length : ℤ) - 1) = i :=
        min_eq_left (by omega)
      rw [hmin]
      have hmax : max 0 (i : ℤ) = i := max_eq_right (Int.ofNat_nonneg i)
      rw [hmax, Int.toNat_natCast]

/-! ## C7 — maxSpread boundary behaviour -/

/-- C7: for a non-empty filtered pool under `maxSpread`, a selection count
of 1 returns exactly the single furthest (largest-distance) filtered
candidate, and a selection count equal to the filtered pool size returns
every filtered candidate. -/
theorem maxSpread_boundaries (dist : LatLng → LatLng → ℚ)
    (crossing : LatLng → LatLng → Bool) (markers : List (ℚ × LatLng))
    (numSpotsToSuggest : ℤ) (pace : List Char) (profile : TravelProfile)
    (skipFirstKm : ℚ)
    (hpool : filterAvailable markers skipFirstKm ≠ [])
    (hnum : 0 < numSpotsToSuggest) :
    (min numSpotsToSuggest.toNat (filterAvailable markers skipFirstKm).length = 1 →
      handleSuggestSpots dist crossing markers numSpotsToSuggest
        SuggestionStrategy.maxSpread pace profile skipFirstKm true =
        some [((filterAvailable markers skipFirstKm).getD
          ((filterAvailable markers skipFirstKm).length - 1) dfltEntry).1] ∧
      ∀ f ∈ filterAvailable markers skipFirstKm,
        f.1 ≤ ((filterAvailable markers skipFirstKm).getD
          ((filterAvailable markers skipFirstKm).length - 1) dfltEntry).1) ∧
    (min numSpotsToSuggest.toNat (filterAvailable markers skipFirstKm).length =
        (filterAvailable markers skipFirstKm).length →
      handleSuggestSpots dist crossing markers numSpotsToSuggest
        SuggestionStrategy.maxSpread pace profile skipFirstKm true =
        some ((filterAvailable markers skipFirstKm).map Prod.fst)) := by
  have hguard : ¬(filterAvailable markers skipFirstKm = [] ∨ numSpotsToSuggest ≤ 0 ∨
      (true = false)) := by
    simp only [not_or]
    exact ⟨hpool, not_le.mpr hnum, by simp⟩
  constructor
  · intro h1
    constructor
    · unfold handleSuggestSpots
      rw [if_neg hguard]
      simp only [h1]
      unfold maxSpreadSelect
      rw [if_pos ⟨rfl, List.length_pos.mpr hpool⟩]
    · exact sorted_last_max (filterAvailable markers skipFirstKm)
        (filterAvailable_sorted markers skipFirstKm)
  · intro h2
    unfold handleSuggestSpots
    rw [if_neg hguard]
    simp only [h2]
    rw [maxSpread_all (filterAvailable markers skipFirstKm) hpool]

/-- C7 witness: both boundary cases instantiated on a concrete two-marker
pool. -/
theorem maxSpread_boundaries_witness :
    (filterAvailable [((1000 : ℚ), (⟨0, 0⟩ : LatLng)), (2000, ⟨0, 1000⟩)] 0 ≠ []) ∧
    (0 : ℤ) < 2 ∧
    ((min (2 : ℤ).toNat (filterAvailable [((1000 : ℚ), (⟨0, 0⟩ : LatLng)), (2000, ⟨0, 1000⟩)] 0).length = 1 →
      handleSuggestSpots taxicab (fun _ _ => false)
        [((1000 : ℚ), (⟨0, 0⟩ : LatLng)), (2000, ⟨0, 1000⟩)] 2
        SuggestionStrategy.maxSpread [] TravelProfile.walking 0 true =
        some [((filterAvailable [((1000 : ℚ), (⟨0, 0⟩ : LatLng)), (2000, ⟨0, 1000⟩)] 0).getD
          ((filterAvailable [((1000 : ℚ), (⟨0, 0⟩ : LatLng)), (2000, ⟨0, 1000⟩)] 0).length - 1)
          dfltEntry).1] ∧
      ∀ f ∈ filterAvailable [((1000 : ℚ), (⟨0, 0⟩ : LatLng)), (2000, ⟨0, 1000⟩)] 0,
        f.1 ≤ ((filterAvailable [((1000 : ℚ), (⟨0, 0⟩ : LatLng)), (2000, ⟨0, 1000⟩)] 0).getD
          ((filterAvailable [((1000 : ℚ), (⟨0, 0⟩ : LatLng)), (2000, ⟨0, 1000⟩)] 0).length - 1)
          dfltEntry).1) ∧
     (min (2 : ℤ).toNat (filterAvailable [((1000 : ℚ), (⟨0, 0⟩ : LatLng)), (2000, ⟨0, 1000⟩)] 0).length =
        (filterAvailable [((1000 : ℚ), (⟨0, 0⟩ : LatLng)), (2000, ⟨0, 1000⟩)] 0).length →
      handleSuggestSpots taxicab (fun _ _ => false)
        [((1000 : ℚ), (⟨0, 0⟩ : LatLng)), (2000, ⟨0, 1000⟩)] 2
        SuggestionStrategy.maxSpread [] TravelProfile.walking 0 true =
        some ((filterAvailable [((1000 : ℚ), (⟨0, 0⟩ : LatLng)), (2000, ⟨0, 1000⟩)] 0).map
          Prod.fst))) := by
  have hpool : filterAvailable [((1000 : ℚ), (⟨0, 0⟩ : LatLng)), (2000, ⟨0, 1000⟩)] 0 ≠ [] := by
    have hev : filterAvailable [((1000 : ℚ), (⟨0, 0⟩ : LatLng)), (2000, ⟨0, 1000⟩)] 0 =
        [((1000 : ℚ), (⟨0, 0⟩ : LatLng)), (2000, ⟨0, 1000⟩)] := by
      norm_num [filterAvailable, List.insertionSort, List.orderedInsert, keyLE]
    rw [hev]
    simp
  exact ⟨hpool, by decide,
    maxSpread_boundaries taxicab (fun _ _ => false)
      [((1000 : ℚ), (⟨0, 0⟩ : LatLng)), (2000, ⟨0, 1000⟩)] 2 [] TravelProfile.walking 0
      hpool (by decide)⟩

instance : IsAntisymm ℚ (· < ·) := ⟨fun _ _ h1 h2 => absurd h2 (lt_asymm h1)⟩

theorem isFeasible_gap (dist : LatLng → LatLng → ℚ) (crossing : LatLng → LatLng → Bool)
    (profile : TravelProfile) {rpm lastD : ℚ} {lastP : LatLng} {cand : ℚ × LatLng}
    (hd : 0 ≤ dist lastP cand.2) (hr : 0 < rpm)
    (h : isFeasible dist crossing profile rpm lastD lastP cand = true) :
    lastD < cand.1 := by
  have hpen : (0 : ℚ) ≤ (if crossing lastP cand.2 then (300 : ℚ) else 0) := by
    split_ifs <;> norm_num
  rcases (isFeasible_iff dist crossing profile rpm lastD lastP cand).mp h with
    ⟨_, hlt⟩ | ⟨_, hlt⟩
  · have h1 : 0 ≤ dist lastP cand.2 / (7 / 5 : ℚ) := div_nonneg hd (by norm_num)
    by_contra hcon
    push_neg at hcon
    nlinarith
  · have h1 : 0 ≤ dist lastP cand.2 / (11 / 2 : ℚ) := div_nonneg hd (by norm_num)
    by_contra hcon
    push_neg at hcon
    nlinarith

theorem minTravelGo_spec (dist : LatLng → LatLng → ℚ) (crossing : LatLng → LatLng → Bool)
    (profile : TravelProfile) (rpm : ℚ) (entries : List (ℚ × LatLng))
    (hr : 0 < rpm) (hd : ∀ a b, 0 ≤ dist a b) :
    ∀ (fuel : ℕ) (acc : List ℚ) (lastD : ℚ) (lastP : LatLng) (used : List ℕ),
      ∃ ext, minTravelGo dist crossing profile rpm entries fuel acc lastD lastP used =
          acc ++ ext ∧
        List.Chain (· < ·) lastD ext ∧
        ∀ x ∈ ext, x ∈ entries.map Prod.fst := by
  intro fuel
  induction fuel with
  | zero =>
    intro acc lastD lastP used
    exact ⟨[], by rw [minTravelGo_zero, List.append_nil], List.Chain.nil, by simp⟩
  | succ n ih =>
    intro acc lastD lastP used
    rw [minTravelGo_succ]
    cases hfb : findBestNext dist crossing profile rpm entries used lastD lastP with
    | none => exact ⟨[], by rw [List.append_nil], List.Chain.nil, by simp⟩
    | some i =>
      obtain ⟨_, hlen, hfeas, _⟩ :=
        findBestNext_some dist crossing profile rpm entries used lastD lastP hfb
      have hgap : lastD < (entries.getD i dfltEntry).1 :=
        isFeasible_gap dist crossing profile (hd _ _) hr hfeas
      obtain ⟨ext, heq, hchain, hmem⟩ := ih (acc ++ [(entries.getD i dfltEntry).1])
        (entries.getD i dfltEntry).1 (entries.getD i dfltEntry).2 (i :: used)
      refine ⟨(entries.getD i dfltEntry).1 :: ext, ?_, ?_, ?_⟩
      · simp only [heq]
        simp
      · exact List.Chain.cons hgap hchain
      · intro x hx
        rcases List.mem_cons.mp hx with rfl | hx'
        · exact List.mem_map.mpr ⟨entries.getD i dfltEntry, getD_mem entries i dfltEntry hlen, rfl⟩
        · exact hmem x hx'

theorem map_fst_filter (markers : List (ℚ × LatLng)) (s : ℚ) :
    (markers.filter (fun e => decide (s * 1000 ≤ e.1))).map Prod.fst =
      (markers.map Prod.fst).filter (fun k => decide (s * 1000 ≤ k)) := by
  induction markers with
  | nil => rfl
  | cons a t ih =>
    by_cases h : s * 1000 ≤ a.1
    · simp [List.filter_cons, h, ih]
    · simp [List.filter_cons, h, ih]

theorem filterAvailable_keys_nodup (markers : List (ℚ × LatLng)) (s : ℚ)
    (h : (markers.map Prod.fst).Nodup) :
    ((filterAvailable markers s).map Prod.fst).Nodup := by
  have hperm : List.Perm (filterAvailable markers s)
      (markers.filter (fun e => decide (s * 1000 ≤ e.1))) :=
    List.perm_insertionSort keyLE _
  have hperm2 := hperm.map Prod.fst
  rw [List.Perm.nodup_iff hperm2, map_fst_filter]
  exact h.filter _

theorem filterAvailable_keys_sorted_lt (markers : List (ℚ × LatLng)) (s : ℚ)
    (h : (markers.map Prod.fst).Nodup) :
    ((filterAvailable markers s).map Prod.fst).Sorted (· < ·) := by
  have hle : ((filterAvailable markers s).map Prod.fst).Sorted (· ≤ ·) :=
    List.Pairwise.map Prod.fst (fun _ _ hk => hk) (filterAvailable_sorted markers s)
  have hnd : ((filterAvailable markers s).map Prod.fst).Pairwise (· ≠ ·) :=
    filterAvailable_keys_nodup markers s h
  exact (hle.and hnd).imp (fun hab => lt_of_le_of_ne hab.1 hab.2)

/-! ## C2 — minTravel output is a monotone subsequence -/

/-- C2: with strategy `minTravel`, a valid pace, and a non-empty filtered
candidate pool, the returned distance list is strictly increasing, is a
subsequence of the ascending-sorted filtered candidate distances, and its
first element is the smallest filtered candidate distance (the seed). -/
theorem minTravel_monotone (dist : LatLng → LatLng → ℚ)
    (crossing : LatLng → LatLng → Bool) (profile : TravelProfile)
    (markers : List (ℚ × LatLng)) (numSpotsToSuggest : ℤ) (pace : List Char)
    (skipFirstKm : ℚ) {rpm : ℚ}
    (hd : ∀ a b, 0 ≤ dist a b)
    (hnodup : (markers.map Prod.fst).Nodup)
    (hpace : parsePaceToSecondsPerMeter pace = some rpm)
    (hpool : filterAvailable markers skipFirstKm ≠ [])
    (hnum : 0 < numSpotsToSuggest) :
    ∃ l, handleSuggestSpots dist crossing markers numSpotsToSuggest
        SuggestionStrategy.minTravel pace profile skipFirstKm true = some l ∧
      l.Sorted (· < ·) ∧
      l.Sublist ((filterAvailable markers skipFirstKm).map Prod.fst) ∧
      ∃ k0 tl, (filterAvailable markers skipFirstKm).map Prod.fst = k0 :: tl ∧
        l.head? = some k0 ∧
        ∀ q ∈ (filterAvailable markers skipFirstKm).map Prod.fst, k0 ≤ q := by
  obtain ⟨e, rest, he⟩ : ∃ e rest, filterAvailable markers skipFirstKm = e :: rest := by
    cases hav : filterAvailable markers skipFirstKm with
    | nil => exact absurd hav hpool
    | cons e rest => exact ⟨e, rest, rfl⟩
  have hr : 0 < rpm := parsePace_pos hpace
  have hguard : ¬(filterAvailable markers skipFirstKm = [] ∨ numSpotsToSuggest ≤ 0 ∨
      (true = false)) := by
    simp only [not_or]
    exact ⟨hpool, not_le.mpr hnum, by simp⟩
  have hkeys_sorted : ((filterAvailable markers skipFirstKm).map Prod.fst).Sorted (· < ·) :=
    filterAvailable_keys_sorted_lt markers skipFirstKm hnodup
  have hmin : ∀ q ∈ (filterAvailable markers skipFirstKm).map Prod.fst, e.1 ≤ q := by
    intro q hq
    rw [he, List.map_cons] at hq
    rcases List.mem_cons.mp hq with rfl | hq'
    · exact le_refl _
    · obtain ⟨f, hf, rfl⟩ := List.mem_map.mp hq'
      have hs := filterAvailable_sorted markers skipFirstKm
      rw [he] at hs
      exact (List.sorted_cons.mp hs).1 f hf
  obtain ⟨ext, heq, hchain, hmem⟩ := minTravelGo_spec dist crossing profile rpm
    (e :: rest) hr hd (min numSpotsToSuggest.toNat (e :: rest).length - 1)
    [e.1] e.1 e.2 [0]
  have hsorted : (e.1 :: ext).Sorted (· < ·) := List.chain_iff_pairwise.mp hchain
  refine ⟨e.1 :: ext, ?_, hsorted, ?_, ?_⟩
  · unfold handleSuggestSpots
    rw [if_neg hguard]
    simp only [hpace, he]
    rw [heq]
    simp
  · have hsub : (e.1 :: ext) ⊆ (filterAvailable markers skipFirstKm).map Prod.fst := by
      intro x hx
      rw [he, List.map_cons]
      rcases List.mem_cons.mp hx with rfl | hx'
      · exact List.mem_cons_self _ _
      · have := hmem x hx'
        rw [List.map_cons] at this
        exact this
    have hnd : (e.1 :: ext).Nodup := List.Pairwise.nodup hsorted
    exact List.sublist_of_subperm_of_sorted
      (List.subperm_of_subset hnd hsub) hsorted hkeys_sorted
  · refine ⟨e.1, rest.map Prod.fst, by rw [he, List.map_cons], rfl, hmin⟩

/-- C2 witness: the monotone-subsequence property instantiated on a
concrete two-marker pool with the pace `5:30`. -/
theorem minTravel_monotone_witness :
    (∀ a b, 0 ≤ taxicab a b) ∧
    (([((1000 : ℚ), (⟨0, 0⟩ : LatLng)), (2000, ⟨0, 1000⟩)].map Prod.fst).Nodup) ∧
    (∃ rpm, parsePaceToSecondsPerMeter ((r"5:30").data) = some rpm) ∧
    (filterAvailable [((1000 : ℚ), (⟨0, 0⟩ : LatLng)), (2000, ⟨0, 1000⟩)] 0 ≠ []) ∧
    (0 : ℤ) < 3 ∧
    (∃ l, handleSuggestSpots taxicab (fun _ _ => false)
        [((1000 : ℚ), (⟨0, 0⟩ : LatLng)), (2000, ⟨0, 1000⟩)] 3
        SuggestionStrategy.minTravel ((r"5:30").data) TravelProfile.walking 0 true =
        some l ∧
      l.Sorted (· < ·) ∧
      l.Sublist ((filterAvailable [((1000 : ℚ), (⟨0, 0⟩ : LatLng)), (2000, ⟨0, 1000⟩)] 0).map
        Prod.fst) ∧
      ∃ k0 tl,
        (filterAvailable [((1000 : ℚ), (⟨0, 0⟩ : LatLng)), (2000, ⟨0, 1000⟩)] 0).map
          Prod.fst = k0 :: tl ∧
        l.head? = some k0 ∧
        ∀ q ∈ (filterAvailable [((1000 : ℚ), (⟨0, 0⟩ : LatLng)), (2000, ⟨0, 1000⟩)] 0).map
          Prod.fst, k0 ≤ q) := by
  have hpool : filterAvailable [((1000 : ℚ), (⟨0, 0⟩ : LatLng)), (2000, ⟨0, 1000⟩)] 0 ≠ [] := by
    have hev : filterAvailable [((1000 : ℚ), (⟨0, 0⟩ : LatLng)), (2000, ⟨0, 1000⟩)] 0 =
        [((1000 : ℚ), (⟨0, 0⟩ : LatLng)), (2000, ⟨0, 1000⟩)] := by
      norm_num [filterAvailable, List.insertionSort, List.orderedInsert, keyLE]
    rw [hev]
    simp
  have hnodup : (([((1000 : ℚ), (⟨0, 0⟩ : LatLng)), (2000, ⟨0, 1000⟩)]).map Prod.fst).Nodup := by
    norm_num
  have hpace : parsePaceToSecondsPerMeter ((r"5:30").data) =
      some (((5 : ℚ) * 60 + (30 : ℚ)) / 1000) :=
    (pace_parse_characterisation ((r"5:30").data)).2 ['5'] ['3', '0'] 5 30
      (by decide) (by decide) (by decide) (by norm_num)
  exact ⟨taxicab_nonneg, hnodup, ⟨_, hpace⟩, hpool, by decide,
    minTravel_monotone taxicab (fun _ _ => false) TravelProfile.walking
      [((1000 : ℚ), (⟨0, 0⟩ : LatLng)), (2000, ⟨0, 1000⟩)] 3 ((r"5:30").data) 0
      taxicab_nonneg hnodup hpace hpool (by decide)⟩

theorem emitLoop_eq (I : ℚ) (hI : 0 < I) (prev cur : LatLng) (segD totalD next : ℚ) :
    emitLoop I hI prev cur segD totalD next =
      if next ≤ totalD + segD then
        if segD = 0 then none
        else
          match emitLoop I hI prev cur segD totalD (next + I) with
          | none => none
          | some (rest, finalNext) =>
            some ((next, interpPoint prev cur ((next - totalD) / segD)) :: rest, finalNext)
      else some ([], next) := by
  rw [emitLoop]
  by_cases h : next ≤ totalD + segD
  · rw [dif_pos h, if_pos h]
    by_cases hz : segD = 0
    · rw [dif_pos hz, if_pos hz]
    · rw [dif_neg hz, if_neg hz]
  · rw [dif_neg h, if_neg h]

theorem emitLoop_zero_seg (I : ℚ) (hI : 0 < I) (prev cur : LatLng) (totalD next : ℚ)
    (h : totalD < next) :
    emitLoop I hI prev cur 0 totalD next = some ([], next) := by
  rw [emitLoop_eq, if_neg (by linarith)]

theorem emitLoop_spec (I : ℚ) (hI : 0 < I) (prev cur : LatLng) (segD totalD : ℚ)
    (hz : segD ≠ 0) :
    ∀ next, ∃ ems finalNext,
      emitLoop I hI prev cur segD totalD next = some (ems, finalNext) ∧
      finalNext = next + I * ems.length ∧
      totalD + segD < finalNext ∧
      ems.map Prod.fst = (List.range ems.length).map (fun (j : ℕ) => next + (j : ℚ) * I) ∧
      ∀ q ∈ ems.map Prod.fst, next ≤ q ∧ q ≤ totalD + segD := by
  have main : ∀ N : ℕ, ∀ next, (⌊(totalD + segD - next) / I⌋ + 1).toNat ≤ N →
      ∃ ems finalNext,
        emitLoop I hI prev cur segD totalD next = some (ems, finalNext) ∧
        finalNext = next + I * ems.length ∧
        totalD + segD < finalNext ∧
        ems.map Prod.fst = (List.range ems.length).map (fun (j : ℕ) => next + (j : ℚ) * I) ∧
        ∀ q ∈ ems.map Prod.fst, next ≤ q ∧ q ≤ totalD + segD := by
    intro N
    induction N with
    | zero =>
      intro next hN
      have hcond : ¬ next ≤ totalD + segD := by
        intro hc
        have hx : 0 ≤ (totalD + segD - next) / I := div_nonneg (by linarith) hI.le
        have hfl : (0 : ℤ) ≤ ⌊(totalD + segD - next) / I⌋ := Int.floor_nonneg.mpr hx
        omega
      exact ⟨[], next, by rw [emitLoop_eq, if_neg hcond], by simp,
        by push_neg at hcond; linarith, by simp, by simp⟩
    | succ N ihN =>
      intro next hN
      by_cases hcond : next ≤ totalD + segD
      · have hmeas : (⌊(totalD + segD - (next + I)) / I⌋ + 1).toNat ≤ N := by
          have hx : 0 ≤ totalD + segD - next := by linarith
          have h2 : (totalD + segD - (next + I)) / I = (totalD + segD - next) / I - 1 := by
            field_simp
            ring
          have h3 : (0 : ℤ) ≤ ⌊(totalD + segD - next) / I⌋ :=
            Int.floor_nonneg.mpr (div_nonneg hx hI.le)
          have h4 : ⌊(totalD + segD - (next + I)) / I⌋ = ⌊(totalD + segD - next) / I⌋ - 1 := by
            rw [h2, Int.floor_sub_one]
          omega
        obtain ⟨ems, fin, hEq, hFin, hBound, hKeys, hRange⟩ := ihN (next + I) hmeas
        refine ⟨(next, interpPoint prev cur ((next - totalD) / segD)) :: ems, fin,
          ?_, ?_, hBound, ?_, ?_⟩
        · rw [emitLoop_eq, if_pos hcond, if_neg hz, hEq]
        · rw [hFin, List.length_cons]
          push_cast
          ring
        · rw [List.map_cons, hKeys, List.length_cons, List.range_succ_eq_map,
            List.map_cons, List.map_map]
          congr 1
          · push_cast
            ring
          · apply List.map_congr_left
            intro j _
            simp only [Function.comp_apply]
            push_cast
            ring
        · intro q hq
          rw [List.map_cons] at hq
          rcases List.mem_cons.mp hq with rfl | hq2
          · exact ⟨le_refl _, hcond⟩
          · obtain ⟨hq3, hq4⟩ := hRange q hq2
            exact ⟨by linarith, hq4⟩
      · exact ⟨[], next, by rw [emitLoop_eq, if_neg hcond], by simp,
          by push_neg at hcond; linarith, by simp, by simp⟩
  exact fun next => main (⌊(totalD + segD - next) / I⌋ + 1).toNat next (le_refl _)

theorem range_add_map (x I : ℚ) (k k2 : ℕ) :
    (List.range (k + k2)).map (fun (j : ℕ) => x + (j : ℚ) * I) =
      ((List.range k).map (fun (j : ℕ) => x + (j : ℚ) * I)) ++
      ((List.range k2).map (fun (j : ℕ) => (x + I * k) + (j : ℚ) * I)) := by
  rw [List.range_add, List.map_append, List.map_map]
  congr 1
  apply List.map_congr_left
  intro j _
  simp only [Function.comp_apply]
  push_cast
  ring

theorem zipWith_sum_nonneg (d : LatLng → LatLng → ℚ) (hd : ∀ a b, 0 ≤ d a b) :
    ∀ (l l2 : List LatLng), 0 ≤ (List.zipWith d l l2).sum := by
  intro l
  induction l with
  | nil => intro l2; simp
  | cons a t ih =>
    intro l2
    cases l2 with
    | nil => simp
    | cons b t2 =>
      simp only [List.zipWith_cons_cons, List.sum_cons]
      have h1 := ih t2
      have h2 := hd a b
      linarith

theorem segmentLoop_nil (d : LatLng → LatLng → ℚ) (I : ℚ) (hI : 0 < I) (prev : LatLng)
    (totalD nextSpot nextFive : ℚ) :
    segmentLoop d I hI prev [] totalD nextSpot nextFive = some ([], [], totalD) := rfl

theorem segmentLoop_cons (d : LatLng → LatLng → ℚ) (I : ℚ) (hI : 0 < I)
    (prev cur : LatLng) (rest : List LatLng) (totalD nextSpot nextFive : ℚ) :
    segmentLoop d I hI prev (cur :: rest) totalD nextSpot nextFive =
      match emitLoop I hI prev cur (d prev cur) totalD nextSpot with
      | none => none
      | some (ems, nextSpot') =>
        match emitLoop 5000 (by norm_num) prev cur (d prev cur) totalD nextFive with
        | none => none
        | some (fives, nextFive') =>
          match segmentLoop d I hI cur rest (totalD + d prev cur) nextSpot' nextFive' with
          | none => none
          | some (m, f, total) => some (ems ++ m, fives ++ f, total) := rfl

theorem segmentLoop_spec (d : LatLng → LatLng → ℚ) (I : ℚ) (hI : 0 < I)
    (hd : ∀ a b, 0 ≤ d a b) :
    ∀ (rest : List LatLng) (prev : LatLng) (totalD nextSpot nextFive : ℚ),
      totalD < nextSpot → totalD < nextFive →
      ∃ ems fives L,
        segmentLoop d I hI prev rest totalD nextSpot nextFive = some (ems, fives, L) ∧
        L = totalD + (List.zipWith d (prev :: rest) rest).sum ∧
        totalD ≤ L ∧
        ems.map Prod.fst =
          (List.range ems.length).map (fun (j : ℕ) => nextSpot + (j : ℚ) * I) ∧
        (∀ q ∈ ems.map Prod.fst, q ≤ L) ∧
        L < nextSpot + I * ems.length := by
  intro rest
  induction rest with
  | nil =>
    intro prev totalD nextSpot nextFive h1 h2
    exact ⟨[], [], totalD, segmentLoop_nil d I hI prev totalD nextSpot nextFive,
      by simp, le_refl _, by simp, by simp, by simpa using h1⟩
  | cons cur rest ih =>
    intro prev totalD nextSpot nextFive h1 h2
    rw [segmentLoop_cons]
    by_cases hz : d prev cur = 0
    · have e1 : emitLoop I hI prev cur (d prev cur) totalD nextSpot = some ([], nextSpot) := by
        rw [hz]; exact emitLoop_zero_seg I hI prev cur totalD nextSpot h1
      have e2 : emitLoop 5000 (by norm_num) prev cur (d prev cur) totalD nextFive =
          some ([], nextFive) := by
        rw [hz]; exact emitLoop_zero_seg 5000 (by norm_num) prev cur totalD nextFive h2
      obtain ⟨emsR, fivesR, L, hEq, hL, hLe, hKeys, hIn, hBnd⟩ :=
        ih cur (totalD + d prev cur) nextSpot nextFive (by rw [hz]; simpa using h1)
          (by rw [hz]; simpa using h2)
      refine ⟨[] ++ emsR, [] ++ fivesR, L, ?_, ?_, ?_, ?_, ?_, ?_⟩
      · simp only [e1, e2, hEq]
      · rw [hL, List.zipWith_cons_cons, List.sum_cons]
        ring
      · calc totalD ≤ totalD + d prev cur := by rw [hz]; simp
          _ ≤ L := hLe
      · simpa using hKeys
      · simpa using hIn
      · simpa using hBnd
    · obtain ⟨ems1, fin1, hEq1, hFin1, hBound1, hKeys1, hRange1⟩ :=
        emitLoop_spec I hI prev cur (d prev cur) totalD hz nextSpot
      obtain ⟨ems2, fin2, hEq2, hFin2, hBound2, hKeys2, hRange2⟩ :=
        emitLoop_spec 5000 (by norm_num) prev cur (d prev cur) totalD hz nextFive
      obtain ⟨emsR, fivesR, L, hEq, hL, hLe, hKeys, hIn, hBnd⟩ :=
        ih cur (totalD + d prev cur) fin1 fin2 hBound1 hBound2
      have hsum : (0 : ℚ) ≤ (List.zipWith d (cur :: rest) rest).sum :=
        zipWith_sum_nonneg d hd (cur :: rest) rest
      have hdp : 0 ≤ d prev cur := hd prev cur
      have hTL : totalD + d prev cur ≤ L := hLe
      refine ⟨ems1 ++ emsR, ems2 ++ fivesR, L, ?_, ?_, ?_, ?_, ?_, ?_⟩
      · simp only [hEq1, hEq2, hEq]
      · rw [hL, List.zipWith_cons_cons, List.sum_cons]
        ring
      · linarith
      · rw [List.map_append, hKeys1, hKeys, List.length_append, range_add_map, hFin1]
      · intro q hq
        rw [List.map_append] at hq
        rcases List.mem_append.mp hq with hq1 | hq2
        · obtain ⟨_, hle⟩ := hRange1 q hq1
          linarith
        · exact hIn q hq2
      · rw [List.length_append]
        push_cast
        have : L < fin1 + I * emsR.length := hBnd
        rw [hFin1] at this
        push_cast at this
        linarith

theorem any_fst_eq (m : List (ℚ × LatLng)) (k : ℚ) :
    m.any (fun e => e.1 = k) = true ↔ k ∈ m.map Prod.fst := by
  rw [List.any_eq_true]
  constructor
  · rintro ⟨e, he, hk⟩
    exact List.mem_map.mpr ⟨e, he, by simpa using hk⟩
  · rintro hk
    obtain ⟨e, he, hk2⟩ := List.mem_map.mp hk
    exact ⟨e, he, by simpa using hk2⟩

theorem mapSet_mem_keys (m : List (ℚ × LatLng)) (k : ℚ) (v : LatLng)
    (h : k ∈ m.map Prod.fst) :
    (mapSet m k v).map Prod.fst = m.map Prod.fst ∧ (k, v) ∈ mapSet m k v := by
  unfold mapSet
  rw [if_pos ((any_fst_eq m k).mpr h)]
  constructor
  · rw [List.map_map]
    apply List.map_congr_left
    intro e _
    simp only [Function.comp_apply]
    split_ifs with he
    · simp [he]
    · rfl
  · obtain ⟨e, he, hk⟩ := List.mem_map.mp h
    refine List.mem_map.mpr ⟨e, he, ?_⟩
    rw [if_pos hk, hk]

theorem mapSet_not_mem_keys (m : List (ℚ × LatLng)) (k : ℚ) (v : LatLng)
    (h : k ∉ m.map Prod.fst) :
    mapSet m k v = m ++ [(k, v)] := by
  unfold mapSet
  rw [if_neg]
  intro hc
  exact h ((any_fst_eq m k).mp hc)

theorem keys_prog_nodup (x I : ℚ) (hI : 0 < I) (m : ℕ) :
    ((List.range m).map (fun (j : ℕ) => x + (j : ℚ) * I)).Nodup := by
  refine List.Nodup.map ?_ (List.nodup_range m)
  intro j1 j2 hj
  simp only at hj
  have h1 : (j1 : ℚ) * I = (j2 : ℚ) * I := by linarith
  have h2 : (j1 : ℚ) = (j2 : ℚ) := mul_right_cancel₀ (ne_of_gt hI) h1
  exact_mod_cast h2

theorem buildCourseIndex_cons (d : LatLng → LatLng → ℚ) (I : ℚ) (hI : 0 < I)
    (p0 p1 : LatLng) (rest : List LatLng) :
    buildCourseIndex d I hI (p0 :: p1 :: rest) =
      match segmentLoop d I hI p0 (p1 :: rest) 0 I 5000 with
      | none => none
      | some (m, f, total) =>
        some (mapSet m total ((p1 :: rest).getLast (List.cons_ne_nil p1 rest)), f,
          total) := rfl

/-! ## C5 — indexing pass safety on degenerate segments -/

/-- C5: for every course of length at least 2, possibly containing
zero-length (repeated-point) segments, the candidate-generation pass
completes without dividing by zero and emits no `NaN`-coordinate
candidate (the `none` failure that models the JavaScript `0 / 0` never
occurs), and a zero-length segment is skipped silently: its interval loop
emits nothing and leaves the threshold unchanged. -/
theorem courseIndex_safe (d : LatLng → LatLng → ℚ) (I : ℚ) (hI : 0 < I)
    (points : List LatLng) (hd : ∀ a b, 0 ≤ d a b) (h2 : 2 ≤ points.length) :
    (buildCourseIndex d I hI points).isSome = true ∧
    (∀ (prev cur : LatLng) (totalD next : ℚ), totalD < next →
      emitLoop I hI prev cur 0 totalD next = some ([], next)) := by
  constructor
  · rcases points with _ | ⟨p0, rest0⟩
    · rfl
    · rcases rest0 with _ | ⟨p1, rest⟩
      · rfl
      · obtain ⟨ems, fives, L, hEq, _⟩ :=
          segmentLoop_spec d I hI hd (p1 :: rest) p0 0 I 5000 hI (by norm_num)
        rw [buildCourseIndex_cons]
        simp only [hEq]
        rfl
  · intro prev cur totalD next h
    exact emitLoop_zero_seg I hI prev cur totalD next h

/-! ## C3 — candidate key coverage -/

/-- C3: for every course of length at least 2 with total length `L` and
interval `I`, the candidate mapping has exactly the keys
`{1*I, …, ⌊L/I⌋*I}` together with one finish key equal to `L` whose point
is the last course point; the finish key is deduplicated when `L` is an
exact multiple of `I` (the explicit key list appends `[L]` only when `L`
is not already a regular key), and the keys are pairwise distinct. -/
theorem courseIndex_keys (d : LatLng → LatLng → ℚ) (I : ℚ) (hI : 0 < I)
    (points : List LatLng) (hd : ∀ a b, 0 ≤ d a b) (h2 : 2 ≤ points.length) :
    ∃ markers fives L,
      buildCourseIndex d I hI points = some (markers, fives, L) ∧
      L = (List.zipWith d points points.tail).sum ∧ 0 ≤ L ∧
      markers.map Prod.fst =
        ((List.range (⌊L / I⌋).toNat).map (fun (j : ℕ) => ((j : ℚ) + 1) * I)) ++
        (if L ∈ (List.range (⌊L / I⌋).toNat).map (fun (j : ℕ) => ((j : ℚ) + 1) * I)
          then [] else [L]) ∧
      (markers.map Prod.fst).Nodup ∧
      (∀ q, q ∈ markers.map Prod.fst ↔
        ((∃ k : ℕ, 1 ≤ k ∧ (k : ℤ) ≤ ⌊L / I⌋ ∧ q = (k : ℚ) * I) ∨ q = L)) ∧
      ∀ h0 : points ≠ [], (L, points.getLast h0) ∈ markers := by
  rcases points with _ | ⟨p0, rest0⟩
  · norm_num at h2
  · rcases rest0 with _ | ⟨p1, rest⟩
    · norm_num at h2
    · obtain ⟨ems, fives, L, hEq, hL, hL0, hKeys, hIn, hBnd⟩ :=
        segmentLoop_spec d I hI hd (p1 :: rest) p0 0 I 5000 hI (by norm_num)
      have hL0' : 0 ≤ L := hL0
      have hmlb : 1 ≤ ems.length → (ems.length : ℚ) * I ≤ L := by
        intro hm1
        have hmem : I + ((ems.length - 1 : ℕ) : ℚ) * I ∈ ems.map Prod.fst := by
          rw [hKeys]
          exact List.mem_map.mpr ⟨ems.length - 1,
            List.mem_range.mpr (by omega), rfl⟩
        have hle := hIn _ hmem
        have hcast : ((ems.length - 1 : ℕ) : ℚ) = (ems.length : ℚ) - 1 := by
          push_cast [Nat.cast_sub hm1]
          ring
        rw [hcast] at hle
        linarith
      have hfloor : ⌊L / I⌋ = (ems.length : ℤ) := by
        rw [Int.floor_eq_iff]
        constructor
        · rw [le_div_iff₀ hI]
          rcases Nat.eq_zero_or_pos ems.length with h0 | hpos
          · rw [h0]
            push_cast
            simpa using hL0'
          · exact_mod_cast hmlb hpos
        · rw [div_lt_iff₀ hI]
          have := hBnd
          push_cast
          linarith
      have htoNat : (⌊L / I⌋).toNat = ems.length := by
        rw [hfloor, Int.toNat_natCast]
      have hReg : ems.map Prod.fst =
          (List.range ((⌊L / I⌋).toNat)).map (fun (j : ℕ) => ((j : ℚ) + 1) * I) := by
        rw [htoNat, hKeys]
        apply List.map_congr_left
        intro j _
        ring
      have hCharEms : ∀ q, q ∈ ems.map Prod.fst ↔
          ∃ k : ℕ, 1 ≤ k ∧ (k : ℤ) ≤ ⌊L / I⌋ ∧ q = (k : ℚ) * I := by
        intro q
        rw [hKeys, hfloor]
        constructor
        · intro hq
          obtain ⟨j, hj, rfl⟩ := List.mem_map.mp hq
          refine ⟨j + 1, by omega, ?_, by push_cast; ring⟩
          exact_mod_cast Nat.succ_le_of_lt (List.mem_range.mp hj)
        · rintro ⟨k, hk1, hkle, rfl⟩
          have hkle' : k ≤ ems.length := by exact_mod_cast hkle
          refine List.mem_map.mpr ⟨k - 1, List.mem_range.mpr (by omega), ?_⟩
          have hcast : ((k - 1 : ℕ) : ℚ) = (k : ℚ) - 1 := by
            push_cast [Nat.cast_sub hk1]
            ring
          rw [hcast]
          ring
      rw [buildCourseIndex_cons]
      simp only [hEq]
      by_cases hmem : L ∈ ems.map Prod.fst
      · obtain ⟨hkeq, hvin⟩ :=
          mapSet_mem_keys ems L ((p1 :: rest).getLast (List.cons_ne_nil p1 rest)) hmem
        refine ⟨_, fives, L, rfl, by simpa using hL, hL0', ?_, ?_, ?_, ?_⟩
        · rw [hkeq, if_pos (by rw [← hReg]; exact hmem), List.append_nil]
          exact hReg
        · rw [hkeq, hKeys]
          exact keys_prog_nodup I I hI ems.length
        · intro q
          rw [hkeq, hCharEms q]
          constructor
          · exact fun h => Or.inl h
          · rintro (h | rfl)
            · exact h
            · exact (hCharEms q).mp hmem
        · intro h0
          have hgl : (p0 :: p1 :: rest).getLast h0 =
              (p1 :: rest).getLast (List.cons_ne_nil p1 rest) :=
            List.getLast_cons (List.cons_ne_nil p1 rest)
          rw [hgl]
          exact hvin
      · rw [mapSet_not_mem_keys ems L ((p1 :: rest).getLast (List.cons_ne_nil p1 rest)) hmem]
        refine ⟨_, fives, L, rfl, by simpa using hL, hL0', ?_, ?_, ?_, ?_⟩
        · rw [List.map_append, hReg, if_neg (by rw [← hReg]; exact hmem)]
          rfl
        · rw [List.map_append]
          rw [List.nodup_append]
          refine ⟨by rw [hKeys]; exact keys_prog_nodup I I hI ems.length, by simp, ?_⟩
          intro q hq
          simp only [List.map_cons, List.map_nil, List.mem_singleton]
          intro hqL
          rw [hqL] at hq
          exact hmem hq
        · intro q
          rw [List.map_append, List.mem_append]
          rw [hCharEms q]
          simp only [List.map_cons, List.map_nil, List.mem_singleton]
        · intro h0
          have hgl : (p0 :: p1 :: rest).getLast h0 =
              (p1 :: rest).getLast (List.cons_ne_nil p1 rest) :=
            List.getLast_cons (List.cons_ne_nil p1 rest)
          rw [hgl]
          exact List.mem_append_right _ (List.mem_singleton.mpr rfl)

/-- C5 witness: the safety conclusion instantiated on a concrete course
containing a repeated point (a zero-length segment). -/
theorem courseIndex_safe_witness :
    (∀ a b, 0 ≤ taxicab a b) ∧
    2 ≤ ([⟨0, 0⟩, ⟨0, 0⟩, ⟨0, 500⟩] : List LatLng).length ∧
    ((buildCourseIndex taxicab 50 (by norm_num)
        ([⟨0, 0⟩, ⟨0, 0⟩, ⟨0, 500⟩] : List LatLng)).isSome = true ∧
      (∀ (prev cur : LatLng) (totalD next : ℚ), totalD < next →
        emitLoop 50 (by norm_num) prev cur 0 totalD next = some ([], next))) :=
  ⟨taxicab_nonneg, by norm_num,
    courseIndex_safe taxicab 50 (by norm_num) ([⟨0, 0⟩, ⟨0, 0⟩, ⟨0, 500⟩] : List LatLng)
      taxicab_nonneg (by norm_num)⟩

/-- C3 witness: the 10-point course of 500 m segments (total 4500 m) with
interval 50 yields exactly the 90 regular keys `50, 100, …, 4500` and no
91st key — the finish key coincides with the last regular key. -/
theorem courseIndex_keys_witness :
    ∃ markers fives,
      buildCourseIndex taxicab 50 (by norm_num)
        ([⟨0, 0⟩, ⟨0, 500⟩, ⟨0, 1000⟩, ⟨0, 1500⟩, ⟨0, 2000⟩, ⟨0, 2500⟩, ⟨0, 3000⟩,
          ⟨0, 3500⟩, ⟨0, 4000⟩, ⟨0, 4500⟩] : List LatLng) = some (markers, fives, 4500) ∧
      markers.map Prod.fst = (List.range 90).map (fun (j : ℕ) => ((j : ℚ) + 1) * 50) ∧
      ((List.range 90).map (fun (j : ℕ) => ((j : ℚ) + 1) * 50)).length = 90 := by
  obtain ⟨markers, fives, L, hEq, hLsum, hL0, hKeyList, hNodup, hChar, hLast⟩ :=
    courseIndex_keys taxicab 50 (by norm_num)
      ([⟨0, 0⟩, ⟨0, 500⟩, ⟨0, 1000⟩, ⟨0, 1500⟩, ⟨0, 2000⟩, ⟨0, 2500⟩, ⟨0, 3000⟩,
        ⟨0, 3500⟩, ⟨0, 4000⟩, ⟨0, 4500⟩] : List LatLng)
      taxicab_nonneg (by norm_num)
  have hL : L = 4500 := by
    rw [hLsum]
    norm_num [taxicab]
  subst hL
  have hfl : ((⌊(4500 : ℚ) / 50⌋).toNat) = 90 := by
    rw [show ⌊(4500 : ℚ) / 50⌋ = (90 : ℤ) from by norm_num]
    rfl
  rw [hfl] at hKeyList
  have hmem : (4500 : ℚ) ∈ (List.range 90).map (fun (j : ℕ) => ((j : ℚ) + 1) * 50) :=
    List.mem_map.mpr ⟨89, List.mem_range.mpr (by norm_num), by norm_num⟩
  rw [if_pos hmem, List.append_nil] at hKeyList
  exact ⟨markers, fives, hEq, hKeyList, by simp⟩

/-! ## C6: projecting a course vertex onto the trail -/


theorem scanNearest_nil (d : LatLng → LatLng → ℚ) (latlng p1 : LatLng) (i : ℕ)
    (st : Option ℚ × LatLng × ℕ × ℚ) :
    scanNearest d latlng p1 [] i st = st := rfl

theorem scanNearest_cons (d : LatLng → LatLng → ℚ) (latlng p1 p2 : LatLng)
    (rest : List LatLng) (i : ℕ) (st : Option ℚ × LatLng × ℕ × ℚ) :
    scanNearest d latlng p1 (p2 :: rest) i st =
      if d p1 p2 = 0 then scanNearest d latlng p2 rest (i + 1) st
      else
        if ltOptInf (d latlng (segProj latlng p1 p2).2) st.1 then
          scanNearest d latlng p2 rest (i + 1)
            (some (d latlng (segProj latlng p1 p2).2), (segProj latlng p1 p2).2, i,
              (segProj latlng p1 p2).1)
        else scanNearest d latlng p2 rest (i + 1) st := rfl

theorem scanNearest_locked (d : LatLng → LatLng → ℚ) (hd : ∀ a b, 0 ≤ d a b)
    (latlng : LatLng) :
    ∀ (rest : List LatLng) (p1 : LatLng) (i : ℕ) (pt : LatLng) (ci : ℕ) (cr : ℚ),
      scanNearest d latlng p1 rest i (some 0, pt, ci, cr) = (some 0, pt, ci, cr) := by
  intro rest
  induction rest with
  | nil => intro p1 i pt ci cr; rfl
  | cons p2 rest ih =>
    intro p1 i pt ci cr
    rw [scanNearest_cons]
    have hfalse : ltOptInf (d latlng (segProj latlng p1 p2).2) (some 0) = false := by
      unfold ltOptInf
      exact decide_eq_false (not_lt.mpr (hd _ _))
    by_cases hz : d p1 p2 = 0
    · rw [if_pos hz]
      exact ih p2 (i + 1) pt ci cr
    · rw [if_neg hz]
      rw [show ((some (0 : ℚ), pt, ci, cr) : Option ℚ × LatLng × ℕ × ℚ).1 = some 0 from rfl,
        hfalse]
      rw [if_neg (by simp)]
      exact ih p2 (i + 1) pt ci cr

theorem segProj_at_start (p1 p2 : LatLng) : segProj p1 p1 p2 = (0, p1) := by
  simp only [segProj]
  have hw : (p1.lng - p1.lng) * (p2.lng - p1.lng) + (p1.lat - p1.lat) * (p2.lat - p1.lat) =
      0 := by ring
  rw [hw]
  split_ifs with hc
  · norm_num
  · rw [zero_div]
    norm_num

theorem segProj_at_end (p1 p2 : LatLng)
    (hdot : (1 : ℚ) / 1000000000000 ≤
      (p2.lng - p1.lng) * (p2.lng - p1.lng) + (p2.lat - p1.lat) * (p2.lat - p1.lat)) :
    segProj p2 p1 p2 = (1, p2) := by
  simp only [segProj]
  rw [if_neg (not_lt.mpr hdot)]
  rw [div_self (ne_of_gt (lt_of_lt_of_le (by norm_num) hdot))]
  norm_num

theorem drop_cons_getD (points : List LatLng) (i : ℕ) (p1 : LatLng) (rest : List LatLng)
    (h : points.drop i = p1 :: rest) : points.getD i default = p1 := by
  have hl : i < points.length := by
    by_contra hc
    push_neg at hc
    rw [List.drop_eq_nil_of_le hc] at h
    exact absurd h (by simp)
  have h3 : points[i] :: points.drop (i + 1) = p1 :: rest := by
    rw [← List.drop_eq_getElem_cons hl, h]
  injection h3 with h4 h5
  rw [List.getD_eq_getElem points default hl, h4]

theorem drop_cons_tail (points : List LatLng) (i : ℕ) (p1 : LatLng) (rest : List LatLng)
    (h : points.drop i = p1 :: rest) : points.drop (i + 1) = rest := by
  have h1 : points.drop (i + 1) = (points.drop i).drop 1 := by
    rw [List.drop_drop]
  rw [h1, h]
  rfl

theorem cumDistAux_getD_step (d : LatLng → LatLng → ℚ) :
    ∀ (l : List LatLng) (prev : LatLng) (total : ℚ) (i : ℕ),
      i + 1 < (prev :: l).length →
      (total :: cumDistAux d total prev l).getD (i + 1) 0 =
        (total :: cumDistAux d total prev l).getD i 0 +
          d ((prev :: l).getD i default) ((prev :: l).getD (i + 1) default) := by
  intro l
  induction l with
  | nil =>
    intro prev total i h
    simp at h
  | cons c l2 ih =>
    intro prev total i h
    cases i with
    | zero => rfl
    | succ j =>
      have hj : j + 1 < (c :: l2).length := by
        simp only [List.length_cons] at h ⊢
        omega
      have hstep := ih c (total + d prev c) j hj
      simp only [cumDistAux, List.getD_cons_succ] at hstep ⊢
      exact hstep

theorem scan_reaches_vertex (d : LatLng → LatLng → ℚ) (points : List LatLng) (v : ℕ)
    (hd : ∀ a b, 0 ≤ d a b) (hd0 : ∀ a, d a a = 0)
    (hv : v < points.length) (hv1 : 1 ≤ v)
    (hpos : ∀ i, i + 1 < points.length →
      d (points.getD i default) (points.getD (i + 1) default) ≠ 0)
    (hdot : ∀ i, i + 1 < points.length →
      (1 : ℚ) / 1000000000000 ≤
        ((points.getD (i + 1) default).lng - (points.getD i default).lng) *
          ((points.getD (i + 1) default).lng - (points.getD i default).lng) +
        ((points.getD (i + 1) default).lat - (points.getD i default).lat) *
          ((points.getD (i + 1) default).lat - (points.getD i default).lat))
    (hearly : ∀ j, j + 1 < v →
      d (points.getD v default)
        (segProj (points.getD v default) (points.getD j default)
          (points.getD (j + 1) default)).2 ≠ 0) :
    ∀ (rest : List LatLng) (p1 : LatLng) (i : ℕ) (st : Option ℚ × LatLng × ℕ × ℚ),
      points.drop i = p1 :: rest → i + 1 ≤ v →
      (st.1 = none ∨ ∃ m : ℚ, st.1 = some m ∧ 0 < m) →
      scanNearest d (points.getD v default) p1 rest i st =
        (some 0, points.getD v default, v - 1, 1) := by
  intro rest
  induction rest with
  | nil =>
    intro p1 i st hdrop hiv hgood
    exfalso
    have hlen := congrArg List.length hdrop
    simp only [List.length_drop, List.length_cons, List.length_nil] at hlen
    omega
  | cons p2 rest ih =>
    intro p1 i st hdrop hiv hgood
    have hp1 : points.getD i default = p1 := drop_cons_getD points i p1 _ hdrop
    have hdrop2 : points.drop (i + 1) = p2 :: rest := drop_cons_tail points i p1 _ hdrop
    have hp2 : points.getD (i + 1) default = p2 := drop_cons_getD points (i + 1) p2 _ hdrop2
    have hseg : i + 1 < points.length := by
      have hlen := congrArg List.length hdrop2
      simp only [List.length_drop, List.length_cons] at hlen
      omega
    have hnz : d p1 p2 ≠ 0 := by
      rw [← hp1, ← hp2]
      exact hpos i hseg
    rw [scanNearest_cons, if_neg hnz]
    rcases Nat.lt_or_ge (i + 1) v with hlt | hge
    · have hc0 : d (points.getD v default) (segProj (points.getD v default) p1 p2).2 ≠ 0 := by
        rw [← hp1, ← hp2]
        exact hearly i hlt
      have hcpos : 0 < d (points.getD v default) (segProj (points.getD v default) p1 p2).2 :=
        lt_of_le_of_ne (hd _ _) (Ne.symm hc0)
      by_cases hlt2 : ltOptInf
          (d (points.getD v default) (segProj (points.getD v default) p1 p2).2) st.1 = true
      · rw [if_pos hlt2]
        exact ih p2 (i + 1) _ hdrop2 hlt (Or.inr ⟨_, rfl, hcpos⟩)
      · rw [if_neg hlt2]
        exact ih p2 (i + 1) st hdrop2 hlt hgood
    · have hveq : v = i + 1 := le_antisymm hge hiv
      have hq : points.getD v default = p2 := by
        rw [hveq]
        exact hp2
      have hdot2 := hdot i hseg
      rw [hp1, hp2] at hdot2
      have hsp : segProj (points.getD v default) p1 p2 = (1, p2) := by
        rw [hq]
        exact segProj_at_end p1 p2 hdot2
      rw [hsp]
      have hdist : d (points.getD v default) (((1 : ℚ), p2) : ℚ × LatLng).2 = 0 := by
        rw [hq]
        exact hd0 p2
      rw [hdist]
      have htrue : ltOptInf 0 st.1 = true := by
        rcases hgood with h0 | ⟨m, hm, hmp⟩
        · rw [h0]
          rfl
        · rw [hm]
          unfold ltOptInf
          exact decide_eq_true hmp
      rw [if_pos htrue]
      rw [scanNearest_locked d hd (points.getD v default) rest p2 (i + 1) _ _ _]
      rw [hq, hveq]
      norm_num

theorem findNearest_cons (d : LatLng → LatLng → ℚ) (latlng p : LatLng)
    (rest : List LatLng) :
    findNearestPointOnTrail d latlng (p :: rest) =
      scanNearest d latlng p rest 0 (none, p, 0, 0) := rfl

/-- C6 (corrected): if every segment of the course has positive length,
every segment is planar-nondegenerate (squared planar length at least
`1e-12`, so the `dot_vv` guard in `findNearestPointOnTrail` does not zero
the ratio), and the queried vertex is not at distance `0` from its
projection onto any strictly earlier segment, then feeding vertex `v` of
the course back into `findNearestPointOnTrail` yields minimum distance
`0`, and `calculateDistanceAlongTrail` on the returned segment index and
ratio equals the cumulative-distance table entry `cumTable[v]`.  The
extra hypotheses are necessary: the original claim is false for
self-intersecting courses (see the counterexample). -/
theorem projection_vertex (d : LatLng → LatLng → ℚ) (points : List LatLng) (v : ℕ)
    (hd : ∀ a b, 0 ≤ d a b) (hd0 : ∀ a, d a a = 0)
    (h2 : 2 ≤ points.length) (hv : v < points.length)
    (hpos : ∀ i, i + 1 < points.length →
      d (points.getD i default) (points.getD (i + 1) default) ≠ 0)
    (hdot : ∀ i, i + 1 < points.length →
      (1 : ℚ) / 1000000000000 ≤
        ((points.getD (i + 1) default).lng - (points.getD i default).lng) *
          ((points.getD (i + 1) default).lng - (points.getD i default).lng) +
        ((points.getD (i + 1) default).lat - (points.getD i default).lat) *
          ((points.getD (i + 1) default).lat - (points.getD i default).lat))
    (hearly : ∀ j, j + 1 < v →
      d (points.getD v default)
        (segProj (points.getD v default) (points.getD j default)
          (points.getD (j + 1) default)).2 ≠ 0) :
    (findNearestPointOnTrail d (points.getD v default) points).1 = some 0 ∧
    calculateDistanceAlongTrail d
      (findNearestPointOnTrail d (points.getD v default) points).2.2.1
      (findNearestPointOnTrail d (points.getD v default) points).2.2.2
      points (cumulativeDistances d points) =
      (cumulativeDistances d points).getD v 0 := by
  rcases points with _ | ⟨p0, rest0⟩
  · norm_num at h2
  rcases rest0 with _ | ⟨p1, rest⟩
  · norm_num at h2
  rcases Nat.eq_zero_or_pos v with hv0 | hv1
  · subst hv0
    have hq0 : (p0 :: p1 :: rest).getD 0 default = p0 := rfl
    rw [hq0]
    have hnz : d p0 p1 ≠ 0 := hpos 0 (by simp)
    have hrun : findNearestPointOnTrail d p0 (p0 :: p1 :: rest) = (some 0, p0, 0, 0) := by
      rw [findNearest_cons, scanNearest_cons, if_neg hnz, segProj_at_start p0 p1]
      rw [show d p0 (((0 : ℚ), p0) : ℚ × LatLng).2 = 0 from hd0 p0]
      rw [if_pos (by rfl)]
      exact scanNearest_locked d hd p0 rest p1 1 p0 0 0
    rw [hrun]
    refine ⟨rfl, ?_⟩
    unfold calculateDistanceAlongTrail
    norm_num
  · have hrun : findNearestPointOnTrail d ((p0 :: p1 :: rest).getD v default)
        (p0 :: p1 :: rest) =
        (some 0, (p0 :: p1 :: rest).getD v default, v - 1, 1) := by
      rw [findNearest_cons]
      exact scan_reaches_vertex d (p0 :: p1 :: rest) v hd hd0 hv hv1 hpos hdot hearly
        (p1 :: rest) p0 0 (none, p0, 0, 0) (by simp) (by omega) (Or.inl rfl)
    rw [hrun]
    refine ⟨rfl, ?_⟩
    unfold calculateDistanceAlongTrail
    have hv2 : v - 1 + 1 = v := by omega
    have hstep := cumDistAux_getD_step d (p1 :: rest) p0 0 (v - 1)
      (by simp only [List.length_cons]; simp only [List.length_cons] at hv; omega)
    rw [hv2] at hstep
    simp only [cumulativeDistances]
    rw [one_mul, hv2]
    exact hstep.symm

/-- C6 counterexample to the unqualified claim: on the self-intersecting
course `[A, B, A]` with `A = (0,0)`, `B = (0,1000)` under the taxicab
metric, querying vertex `2` (which equals `A`) returns distance `0` but
the scan locks onto the FIRST occurrence, so the along-course distance is
`0` while `cumTable[2] = 2000`. -/
theorem projection_vertex_counterexample :
    ((⟨0, 0⟩ : LatLng) = ([⟨0, 0⟩, ⟨0, 1000⟩, ⟨0, 0⟩] : List LatLng).getD 2 default) ∧
    (findNearestPointOnTrail taxicab ⟨0, 0⟩ [⟨0, 0⟩, ⟨0, 1000⟩, ⟨0, 0⟩]).1 = some 0 ∧
    calculateDistanceAlongTrail taxicab
      (findNearestPointOnTrail taxicab ⟨0, 0⟩ [⟨0, 0⟩, ⟨0, 1000⟩, ⟨0, 0⟩]).2.2.1
      (findNearestPointOnTrail taxicab ⟨0, 0⟩ [⟨0, 0⟩, ⟨0, 1000⟩, ⟨0, 0⟩]).2.2.2
      [⟨0, 0⟩, ⟨0, 1000⟩, ⟨0, 0⟩]
      (cumulativeDistances taxicab [⟨0, 0⟩, ⟨0, 1000⟩, ⟨0, 0⟩]) = 0 ∧
    (cumulativeDistances taxicab [⟨0, 0⟩, ⟨0, 1000⟩, ⟨0, 0⟩]).getD 2 0 = 2000 := by
  have hrun : findNearestPointOnTrail taxicab ⟨0, 0⟩ [⟨0, 0⟩, ⟨0, 1000⟩, ⟨0, 0⟩] =
      (some 0, ⟨0, 0⟩, 0, 0) := by
    rw [findNearest_cons, scanNearest_cons]
    rw [if_neg (by norm_num [taxicab])]
    rw [segProj_at_start]
    rw [show taxicab ⟨0, 0⟩ (((0 : ℚ), (⟨0, 0⟩ : LatLng)) : ℚ × LatLng).2 = 0 from
      taxicab_self _]
    rw [if_pos (by rfl)]
    exact scanNearest_locked taxicab taxicab_nonneg ⟨0, 0⟩ [⟨0, 0⟩] ⟨0, 1000⟩ 1 ⟨0, 0⟩ 0 0
  refine ⟨rfl, ?_, ?_, ?_⟩
  · rw [hrun]
  · rw [hrun]
    unfold calculateDistanceAlongTrail
    norm_num [cumulativeDistances, cumDistAux, taxicab]
  · norm_num [cumulativeDistances, cumDistAux, taxicab]

/-- Witness for `projection_vertex`: a straight three-vertex course with
all hypotheses discharged concretely at vertex `v = 2`. -/
theorem projection_vertex_witness :
    (findNearestPointOnTrail taxicab
      (([⟨0, 0⟩, ⟨0, 1000⟩, ⟨0, 2000⟩] : List LatLng).getD 2 default)
      [⟨0, 0⟩, ⟨0, 1000⟩, ⟨0, 2000⟩]).1 = some 0 ∧
    calculateDistanceAlongTrail taxicab
      (findNearestPointOnTrail taxicab
        (([⟨0, 0⟩, ⟨0, 1000⟩, ⟨0, 2000⟩] : List LatLng).getD 2 default)
        [⟨0, 0⟩, ⟨0, 1000⟩, ⟨0, 2000⟩]).2.2.1
      (findNearestPointOnTrail taxicab
        (([⟨0, 0⟩, ⟨0, 1000⟩, ⟨0, 2000⟩] : List LatLng).getD 2 default)
        [⟨0, 0⟩, ⟨0, 1000⟩, ⟨0, 2000⟩]).2.2.2
      [⟨0, 0⟩, ⟨0, 1000⟩, ⟨0, 2000⟩]
      (cumulativeDistances taxicab [⟨0, 0⟩, ⟨0, 1000⟩, ⟨0, 2000⟩]) =
      (cumulativeDistances taxicab [⟨0, 0⟩, ⟨0, 1000⟩, ⟨0, 2000⟩]).getD 2 0 := by
  refine projection_vertex taxicab [⟨0, 0⟩, ⟨0, 1000⟩, ⟨0, 2000⟩] 2
    taxicab_nonneg taxicab_self (by decide) (by decide) ?_ ?_ ?_
  · intro i hi
    have hi2 : i < 2 := by simp only [List.length_cons, List.length_nil] at hi; omega
    interval_cases i <;>
      norm_num [taxicab, List.getD_cons_zero, List.getD_cons_succ]
  · intro i hi
    have hi2 : i < 2 := by simp only [List.length_cons, List.length_nil] at hi; omega
    interval_cases i <;>
      norm_num [List.getD_cons_zero, List.getD_cons_succ]
  · intro j hj
    have hj2 : j = 0 := by omega
    subst hj2
    norm_num [segProj, taxicab, List.getD_cons_zero, List.getD_cons_succ]
